import Mathlib

/-!
Verification of the entity persistence and save/load core of the
`game_engine` crate (`src/core.rs`).

The development is a shallow embedding of three slices of `core.rs`:

* the reference-graph codec: `PersistentState::serialize_layers`,
  `PersistentStateTemp::deserialize_layers`, `PersistentStateTemp::replace`,
  `GameState::save` and `GameState::load`;
* the interior-mutability cell discipline: `PersistentRef::get` / `set`
  and the take/restore forwarding methods of `PersistentEntity` and
  `VolatileEntity`;
* one frame of the `GameState::run` loop: the generate-rate, apply-rate,
  apply-spawns/despawn and spawn-insertion phases.

Modelling conventions, used throughout:

* Machine pointers (`Rc` cell addresses) are modelled as natural-number slot
  identities; a fresh `Rc` allocation is a fresh identity.
* `&'static str` layer names are modelled by an ordered key type (`Nat`);
  the `BTreeMap` of layers is modelled as an association list in the map's
  iteration order (sorted, duplicate-free keys in a real registry — theorems
  take those facts as hypotheses where they are needed).
* Rust functions that can panic are modelled as `Option`-valued functions,
  `none` marking exactly the executions on which the Rust code panics.
* File transport (`serde_json::to_writer` / `from_reader`) is modelled as
  the identity on the structured document; I/O and JSON syntax errors are
  modelled by an `Except String` input to `GameState::load`.
-/

namespace GameEngine

/-! ## Shared list helpers -/

/-- Position of the first occurrence of `a` in `l` (a functional stand-in for
the `HashMap` lookups of `core.rs`; in a real registry slot identities are
distinct, so first occurrence is the occurrence). -/
def posOf : List Nat → Nat → Option Nat
  | [], _ => Option.none
  | x :: xs, a => if x = a then some 0 else (posOf xs a).map (· + 1)

/-- Traverse a list with a fallible function, succeeding only if every element
succeeds (the shape of a serde (de)serialization pass that can fail or panic
part-way). -/
def optionMapAll (f : α → Option β) : List α → Option (List β)
  | [] => some []
  | a :: l =>
    match f a, optionMapAll f l with
    | some b, some l' => some (b :: l')
    | _, _ => Option.none

/-! ## The save/load data model (core.rs 204-340)

A persistent entity's saveable payload is modelled by `PObj`: an opaque
serde-serialized field (`data`) plus the ordered list of weak references the
entity reports from `save_entity_references` and accepts back in
`load_entity_references` (`refs`). A `PEntity` pairs the payload with the
slot identity of the `Rc` cell holding it. -/

abbrev SlotId := Nat

abbrev LayerName := Nat

/-- `MaybePersistentRef` (core.rs 214-221): a saveable weak reference.
`Some` holds the identity of the target slot (the Rust `Weak` pointer). -/
inductive MaybePersistentRef where
  | None
  | Despawned
  | Some (sid : SlotId)
deriving DecidableEq

/-- The saveable state of one `dyn Persistent` object: its serde payload and
the references returned by `save_entity_references`. -/
structure PObj where
  data : Nat
  refs : List MaybePersistentRef
deriving DecidableEq

/-- A `PersistentEntity`: the registry-owned `Rc` cell (identity `sid`)
holding one object. -/
structure PEntity where
  sid : SlotId
  obj : PObj
deriving DecidableEq

/-- The `persistent_layers` `BTreeMap`, in iteration order. -/
abbrev PLayers := List (LayerName × List PEntity)

/-- `Tag` (core.rs 276-282): the on-disk encoding of one reference. -/
inductive Tag where
  | None
  | Despawned
  | Some (t : Nat)
deriving DecidableEq

/-- `TaggedPersistent` (core.rs 285-292): an entity together with its dense
save tag and (eventually) its encoded reference list. -/
structure TaggedPersistent where
  e : PEntity
  tag : Nat
  refs : List Tag
deriving DecidableEq

/-- One serialized entity record of the save document: the serde payload of
the object, its tag, and its encoded references. -/
structure TaggedDocEntity where
  data : Nat
  tag : Nat
  refs : List Tag
deriving DecidableEq

/-- A save document: layers in document order, each a list of records. -/
abbrev Doc := List (LayerName × List TaggedDocEntity)

/-- All entities of a registry in save-traversal order: layer iteration
order, then slot sequence order within each layer. -/
def flatEnts (L : PLayers) : List PEntity := L.flatMap (·.2)

/-- The slot identities of a registry in save-traversal order. -/
def slotIds (L : PLayers) : List SlotId := (flatEnts L).map (·.sid)

/-- All records of a document in document order. -/
def flatDoc (doc : Doc) : List TaggedDocEntity := doc.flatMap (·.2)

/-- Whether a `Weak::upgrade` against slot `sid` succeeds at save time.  The
registry holds the only strong references to persistent entities
(`debug_assert_layers_rc_sanity`, core.rs 430-448), so an upgrade succeeds
exactly when the slot is still in some persistent layer. -/
def alive (L : PLayers) (sid : SlotId) : Bool := (slotIds L).contains sid

/-! ### `PersistentState::serialize_layers` (core.rs 349-420) -/

/-- First pass, inner loop (core.rs 366-390): walk one layer's slots in
order, giving each the next dense tag; `refs` is populated in the next
step. -/
def tagSlots (next : Nat) : List PEntity → List TaggedPersistent
  | [] => []
  | e :: rest => ⟨e, next, []⟩ :: tagSlots (next + 1) rest

/-- First pass, outer loop: walk the layers in iteration order, threading
the `next_tag` counter. -/
def tagLayers (next : Nat) : PLayers → List (LayerName × List TaggedPersistent)
  | [] => []
  | (k, es) :: rest => (k, tagSlots next es) :: tagLayers (next + es.length) rest

/-- The `lookup_tag` map (core.rs 362-379): slot identity to assigned tag.
The Rust builds a `HashMap` keyed on cell address, skipping entities whose
weak count is zero; such entities can never be the target of an upgraded
weak reference, so looking up the tagged traversal directly is equivalent. -/
def lookup_tag (tl : List (LayerName × List TaggedPersistent)) (sid : SlotId) : Option Nat :=
  ((tl.flatMap (·.2)).find? (fun t => t.e.sid == sid)).map (·.tag)

/-- Second pass, one reference (core.rs 395-409): `None` and `Despawned`
are copied; a live `Some` is resolved to its target's tag; a `Some` whose
upgrade fails is encoded as `Despawned` instead of panicking.  `none` marks
the `lookup_tag.get(&p).unwrap()` panic (core.rs 405), reachable only if an
upgrade succeeds on a slot outside the registry. -/
def encodeRef (L : PLayers) (tl : List (LayerName × List TaggedPersistent)) :
    MaybePersistentRef → Option Tag
  | MaybePersistentRef.None => some Tag.None
  | MaybePersistentRef.Despawned => some Tag.Despawned
  | MaybePersistentRef.Some sid =>
    if alive L sid then (lookup_tag tl sid).map Tag.Some
    else some Tag.Despawned

/-- `PersistentState::serialize_layers` (core.rs 349-420): tag every slot,
encode every entity's reported references, and emit the document in layer
iteration order.  `none` marks a panic. -/
def serialize_layers (L : PLayers) : Option Doc :=
  let tl := tagLayers 0 L
  optionMapAll (fun kv =>
    (optionMapAll (fun t =>
      (optionMapAll (encodeRef L tl) t.e.obj.refs).map
        (fun rs => TaggedDocEntity.mk t.e.obj.data t.tag rs)) kv.2).map
      (fun es => (kv.1, es))) tl

/-! ### `PersistentStateTemp::deserialize_layers` (core.rs 469-546) -/

/-- Parsing allocates a fresh `Rc` per record (core.rs 321-327).  The `j`-th
record of the document, in document traversal order, becomes slot `j` of the
fresh heap. -/
def freshSlots (next : Nat) : List TaggedDocEntity → List (SlotId × TaggedDocEntity)
  | [] => []
  | d :: rest => (next, d) :: freshSlots (next + 1) rest

/-- Fresh slot allocation across the document's layers. -/
def freshLayers (next : Nat) : Doc → List (LayerName × List (SlotId × TaggedDocEntity))
  | [] => []
  | (k, ds) :: rest => (k, freshSlots next ds) :: freshLayers (next + ds.length) rest

/-- All freshly allocated slots of a document in traversal order. -/
def freshAll (doc : Doc) : List (SlotId × TaggedDocEntity) :=
  (freshLayers 0 doc).flatMap (·.2)

/-- The `referenced_tags` set (core.rs 498-507): every tag targeted by at
least one `Tag::Some` reference in the document. -/
def referenced_tags (doc : Doc) : List Nat :=
  (flatDoc doc).flatMap (fun d =>
    d.refs.filterMap (fun r =>
      match r with
      | Tag.Some u => some u
      | _ => Option.none))

/-- The `lookup_entity` map (core.rs 509-518): tag to freshly allocated
slot, built only for referenced tags. -/
def lookup_entity (fl : List (LayerName × List (SlotId × TaggedDocEntity)))
    (refd : List Nat) (u : Nat) : Option SlotId :=
  if refd.contains u then ((fl.flatMap (·.2)).find? (fun p => p.2.tag == u)).map (·.1)
  else Option.none

/-- Decoding one reference (core.rs 530-537): `Tag::Some` is re-resolved to
a weak handle on the slot holding that tag; `Despawned` and `None` map to
their `MaybePersistentRef` namesakes.  `none` marks the
`lookup_entity.get(u).unwrap()` panic (core.rs 532), reached when a tag
matches no entity of the document. -/
def decodeRef (le : Nat → Option SlotId) : Tag → Option MaybePersistentRef
  | Tag.None => some MaybePersistentRef.None
  | Tag.Despawned => some MaybePersistentRef.Despawned
  | Tag.Some u => (le u).map MaybePersistentRef.Some

/-- `PersistentStateTemp::deserialize_layers` (core.rs 469-546): allocate
fresh slots, rebuild every reference list from the tags, and hand each list
back through `load_entity_references` (modelled as installing the list in
the payload).  `none` marks a panic during deserialization. -/
def deserialize_layers (doc : Doc) : Option PLayers :=
  let fl := freshLayers 0 doc
  let refd := referenced_tags doc
  optionMapAll (fun kv =>
    (optionMapAll (fun (p : SlotId × TaggedDocEntity) =>
      (optionMapAll (decodeRef (lookup_entity fl refd)) p.2.refs).map
        (fun rs => PEntity.mk p.1 ⟨p.2.data, rs⟩)) kv.2).map
      (fun es => (kv.1, es))) fl

/-! ### `PersistentStateTemp::replace`, `GameState::save` / `load`
(core.rs 451-466, 549-652) -/

/-- The saveable section of the game state (core.rs 331-339). -/
structure PersistentState where
  persistent_layers : PLayers
deriving DecidableEq

/-- `PersistentStateTemp::replace` (core.rs 451-466), in store-passing
style: validate that the loaded key sequence equals the live one, then swap
each live layer's contents for the loaded contents of the same key.  On
mismatch it returns the untouched live state together with the error. -/
def replace (incoming : PLayers) (state : PersistentState) :
    PersistentState × Option String :=
  if incoming.map (·.1) = state.persistent_layers.map (·.1) then
    ({ persistent_layers := state.persistent_layers.map
        (fun kv => (kv.1,
          match incoming.find? (fun kv' => kv'.1 == kv.1) with
          | some l => l.2
          | Option.none => [])) },   -- the `.unwrap()` cannot miss under the guard
      Option.none)
  else (state, some "loaded save file does not contain correct render layers")

/-- `GameState` (core.rs 549-563).  The sdl members (`event_pump`,
`canvas`, video subsystem, context) are opaque to the persistence core and
are modelled as inert fields; volatile entities are opaque payloads. -/
structure GameState where
  layer_names : List LayerName
  persistent_state : PersistentState
  volatile_layers : List (LayerName × List Nat)
  event_pump : Nat
  canvas : Nat
deriving DecidableEq

/-- How a call to `GameState::load` terminates: a normal `Ok(())`, an
`Err(String)` returned to the caller, or a process panic inside serde
deserialization (no `Result` is ever produced). -/
inductive LoadOutcome where
  | ok
  | err (msg : String)
  | panicked
deriving DecidableEq

/-- `GameState::save` (core.rs 636-641): the document written to the save
file.  `none` marks a panic while serializing. -/
def GameState.save (g : GameState) : Option Doc :=
  serialize_layers g.persistent_state.persistent_layers

/-- `GameState::load` (core.rs 645-652).  `fileRead` is the combined result
of `File::open` and JSON parsing; deserialization and the layer-set check
follow, and on success the reconstructed layers replace the persistent
state.  Every branch returns the resulting game state unchanged except for
the final swap. -/
def GameState.load (g : GameState) (fileRead : Except String Doc) :
    GameState × LoadOutcome :=
  match fileRead with
  | Except.error e => (g, LoadOutcome.err e)
  | Except.ok doc =>
    match deserialize_layers doc with
    | Option.none => (g, LoadOutcome.panicked)
    | Option.some incoming =>
      match replace incoming g.persistent_state with
      | (ps, Option.none) => ({ g with persistent_state := ps }, LoadOutcome.ok)
      | (ps, Option.some e) => ({ g with persistent_state := ps }, LoadOutcome.err e)

/-! ### Specification-side images of the codec

These are not translations of source functions: they are closed-form
descriptions of what the two passes produce, proved equal to the source
translations in the theorems below. -/

/-- The tag a saved reference resolves to: the save-traversal position of
its target, or `Despawned` when the target is no longer in the registry. -/
def encodeRefT (L : PLayers) : MaybePersistentRef → Tag
  | MaybePersistentRef.None => Tag.None
  | MaybePersistentRef.Despawned => Tag.Despawned
  | MaybePersistentRef.Some sid =>
    match posOf (slotIds L) sid with
    | Option.some p => Tag.Some p
    | Option.none => Tag.Despawned

/-- The document `serialize_layers` emits for registry `L`. -/
def docOf (L : PLayers) : Doc :=
  (tagLayers 0 L).map (fun kv =>
    (kv.1, kv.2.map (fun t =>
      TaggedDocEntity.mk t.e.obj.data t.tag (t.e.obj.refs.map (encodeRefT L)))))

/-- The round-trip image of one saved reference: `None` and `Despawned` are
preserved, and a reference to a live slot becomes a reference to the fresh
slot whose identity is the target's save-traversal position. -/
def refImage (L : PLayers) : MaybePersistentRef → MaybePersistentRef
  | MaybePersistentRef.None => MaybePersistentRef.None
  | MaybePersistentRef.Despawned => MaybePersistentRef.Despawned
  | MaybePersistentRef.Some sid =>
    match posOf (slotIds L) sid with
    | Option.some p => MaybePersistentRef.Some p
    | Option.none => MaybePersistentRef.Despawned

/-- What each on-disk tag decodes to when every `Tag::Some u` resolves to
the fresh slot of identity `u` — the situation in any document produced by
`serialize_layers`, whose tags are the traversal positions. -/
def tagImage : Tag → MaybePersistentRef
  | Tag.None => MaybePersistentRef.None
  | Tag.Despawned => MaybePersistentRef.Despawned
  | Tag.Some u => MaybePersistentRef.Some u

/-- The registry produced by loading a save of `L`: same layer shape, the
entity at traversal position `j` reborn in fresh slot `j` with its payload
intact and its references re-resolved by position. -/
def loadImage (L : PLayers) : PLayers :=
  (freshLayers 0 (docOf L)).map (fun kv =>
    (kv.1, kv.2.map (fun p => PEntity.mk p.1 ⟨p.2.data, p.2.refs.map tagImage⟩)))

/-! ## The cell take/restore model (core.rs 105-270)

A persistent (or volatile) entity lives in an `Rc<Cell<Option<Box<dyn …>>>>`.
The heap maps the identity of every still-allocated cell to its contents;
`none` contents model a cell whose object is currently taken out. -/

/-- The live cells of one ownership kind: allocated slot identities paired
with their `Cell<Option<Box<…>>>` contents. -/
structure Heap (α : Type) where
  cells : List (SlotId × Option α)
deriving DecidableEq

/-- `Weak::upgrade` followed by reading the cell: `none` when the slot has
been deallocated, otherwise the cell contents. -/
def Heap.upgrade (h : Heap α) (sid : SlotId) : Option (Option α) :=
  (h.cells.find? (fun kv => kv.1 == sid)).map (·.2)

/-- `Cell::set` / `Cell::take` on one slot: overwrite its contents. -/
def Heap.setCell (h : Heap α) (sid : SlotId) (c : Option α) : Heap α :=
  ⟨h.cells.map (fun kv => if kv.1 == sid then (kv.1, c) else kv)⟩

/-- Every allocated cell currently holds an object. -/
def Heap.occupied (h : Heap α) : Prop := ∀ kv ∈ h.cells, kv.2.isSome = true

/-- `PersistentRefPromotionResult` (core.rs 240-250). -/
inductive PersistentRefPromotionResult (α : Type) where
  | Despawned
  | Taken
  | Some (e : α)
deriving DecidableEq

/-- `PersistentRef::get` (core.rs 254-264): upgrade the weak pointer
(`Despawned` on failure), then `take` the cell (`Taken` when it is already
empty; otherwise the object comes out and the cell is left empty, to be
returned by `PersistentRef::set`). -/
def PersistentRef.get (h : Heap α) (sid : SlotId) :
    PersistentRefPromotionResult α × Heap α :=
  match h.upgrade sid with
  | Option.none => (PersistentRefPromotionResult.Despawned, h)
  | Option.some Option.none => (PersistentRefPromotionResult.Taken, h)
  | Option.some (Option.some e) =>
    (PersistentRefPromotionResult.Some e, h.setCell sid Option.none)

/-- `PersistentRef::set` (core.rs 267-269): return the object to its cell. -/
def PersistentRef.set (h : Heap α) (sid : SlotId) (e : α) : Heap α :=
  h.setCell sid (some e)

/-- The shared take/call/restore pattern of every forwarding method of
`PersistentEntity` and `VolatileEntity` (core.rs 112-185) and of the
`TaggedPersistent` serializer (core.rs 294-307): take the object out, run
the entity method (which sees the heap with this cell empty), and restore
the result into exactly this cell.  `none` in the second component marks the
`self.0.take().unwrap()` panic on an already-empty cell, unreachable at
steady state. -/
def withTaken (h : Heap α) (sid : SlotId) (body : α → Heap α → α × ρ) :
    Heap α × Option ρ :=
  match h.upgrade sid with
  | Option.some (Option.some e) =>
    let h1 := h.setCell sid Option.none
    let er := body e h1
    (h1.setCell sid (some er.1), some er.2)
  | _ => (h, Option.none)

/-- `PersistentEntity::generate_rate` (core.rs 148-152): `f` is the trait
implementation, receiving the object and the game state — in which this
entity's own cell is empty for the duration of the call. -/
def PersistentEntity.generate_rate (h : Heap α) (sid : SlotId)
    (f : α → Heap α → α) : Heap α :=
  (withTaken h sid (fun e h1 => (f e h1, ()))).1

/-- `PersistentEntity::apply_rate` (core.rs 154-158). -/
def PersistentEntity.apply_rate (h : Heap α) (sid : SlotId) (f : α → α) : Heap α :=
  (withTaken h sid (fun e _ => (f e, ()))).1

/-- `PersistentEntity::apply_spawns` (core.rs 160-165): reads the object,
restores it unchanged, and reports the spawn/liveliness changes. -/
def PersistentEntity.apply_spawns (h : Heap α) (sid : SlotId) (f : α → ρ) :
    Heap α × Option ρ :=
  withTaken h sid (fun e _ => (e, f e))

/-- `PersistentEntity::render` (core.rs 167-171): reads the object and
restores it unchanged (`f` models the draw calls issued to the canvas). -/
def PersistentEntity.render (h : Heap α) (sid : SlotId) (f : α → κ) :
    Heap α × Option κ :=
  withTaken h sid (fun e _ => (e, f e))

/-- `PersistentEntity::save_entity_references` (core.rs 173-178). -/
def PersistentEntity.save_entity_references (h : Heap α) (sid : SlotId)
    (f : α → List MaybePersistentRef) : Heap α × Option (List MaybePersistentRef) :=
  withTaken h sid (fun e _ => (e, f e))

/-- `PersistentEntity::load_entity_references` (core.rs 180-184). -/
def PersistentEntity.load_entity_references (h : Heap α) (sid : SlotId)
    (v : List MaybePersistentRef) (f : α → List MaybePersistentRef → α) : Heap α :=
  (withTaken h sid (fun e _ => (f e v, ()))).1

/-- `TaggedPersistent::serialize`, the `e` field step (core.rs 300-302):
take the object, emit its serde payload, restore it. -/
def TaggedPersistent.serializeField (h : Heap α) (sid : SlotId) :
    Heap α × Option α :=
  withTaken h sid (fun e _ => (e, e))

/-- `VolatileEntity::generate_rate` (core.rs 113-117). -/
def VolatileEntity.generate_rate (h : Heap α) (sid : SlotId)
    (f : α → Heap α → α) : Heap α :=
  (withTaken h sid (fun e h1 => (f e h1, ()))).1

/-- `VolatileEntity::apply_rate` (core.rs 119-123). -/
def VolatileEntity.apply_rate (h : Heap α) (sid : SlotId) (f : α → α) : Heap α :=
  (withTaken h sid (fun e _ => (f e, ()))).1

/-- `VolatileEntity::apply_spawns` (core.rs 125-130). -/
def VolatileEntity.apply_spawns (h : Heap α) (sid : SlotId) (f : α → ρ) :
    Heap α × Option ρ :=
  withTaken h sid (fun e _ => (e, f e))

/-- `VolatileEntity::render` (core.rs 132-136). -/
def VolatileEntity.render (h : Heap α) (sid : SlotId) (f : α → κ) :
    Heap α × Option κ :=
  withTaken h sid (fun e _ => (e, f e))

/-! ## One frame of `GameState::run` (core.rs 708-865)

The frame model runs the four mutation phases of the loop body — generate
rates, apply rates, apply spawns / despawn, insert new spawns — over both
registries.  Simulated objects carry a visible state (`val`) and the pending
delta stashed by `generate_rate` (`rate`); per the trait contract
(core.rs 41-44, 68-70) `generate_rate` only stashes a rate, and `apply_rate`
commits it without reading other objects.  The model also reifies the call
order as an event trace and records, for every `generate_rate` call, the
game-state snapshot handed to it. -/

/-- A simulated object: current visible state plus the stashed rate. -/
structure SimObj where
  val : Nat
  rate : Nat
deriving DecidableEq

/-- An entity: slot identity paired with its object. -/
abbrev Ent := Nat × SimObj

/-- One named layer of entities. -/
abbrev SimLayer := Nat × List Ent

/-- The `&GameState` visible during one entity method call: every cell of
both registries, the current entity's own cell being empty (taken). -/
structure Snap where
  players : List (Nat × List (Nat × Option SimObj))
  vlayers : List (Nat × List (Nat × Option SimObj))
deriving DecidableEq

/-- One cell as seen in a snapshot taken during `cur`'s own call. -/
def snapCell (cur : Nat) (e : Ent) : Nat × Option SimObj :=
  (e.1, if e.1 == cur then Option.none else some e.2)

/-- The snapshot visible while entity `cur` is being updated. -/
def mkSnap (ps vs : List SimLayer) (cur : Nat) : Snap :=
  ⟨ps.map (fun l => (l.1, l.2.map (snapCell cur))),
   vs.map (fun l => (l.1, l.2.map (snapCell cur)))⟩

/-- Resolving a weak reference against a snapshot: `none` when no layer
holds the slot (despawned), otherwise the cell contents (`none` inside =
currently taken). -/
def Snap.lookup (s : Snap) (sid : Nat) : Option (Option SimObj) :=
  (((s.players ++ s.vlayers).flatMap (·.2)).find? (fun c => c.1 == sid)).map (·.2)

/-- The user-supplied trait implementations driving the frame:
`Persistent` behavior (`p…`) and `Volatile` behavior (`v…`).  Spawn lists
pair a target layer name with the entities to append (a fresh identity is
chosen for each spawned object). -/
structure SimBehavior where
  pgen : Nat → SimObj → Snap → Nat
  papply : Nat → SimObj → SimObj
  palive : Nat → SimObj → Bool
  pspawnP : Nat → SimObj → List (Nat × List Ent)
  pspawnV : Nat → SimObj → List (Nat × List Ent)
  vgen : Nat → SimObj → Snap → Nat
  vapply : Nat → SimObj → SimObj
  valive : Nat → SimObj → Bool
  vspawnV : Nat → SimObj → List (Nat × List Ent)

/-- One entity method call, as an event of the frame trace. -/
inductive Ev where
  | gen (sid : Nat)
  | app (sid : Nat)
  | check (sid : Nat)
  | ins (sid : Nat)
deriving DecidableEq

/-- The generate-rate loop over one layer's entities (core.rs 733-735):
each entity in order has its rate recomputed from the snapshot current at
its call, in which its own cell is taken.  `mkS` rebuilds the full game
state from this layer's current contents; `done` holds the already-updated
entities.  Returns the updated entities and the `(sid, snapshot)` of every
call in order. -/
def genEnts (g : Nat → SimObj → Snap → Nat) (mkS : List Ent → Nat → Snap) :
    List Ent → List Ent → List Ent × List (Nat × Snap)
  | done, [] => (done, [])
  | done, e :: rest =>
    let sn := mkS (done ++ e :: rest) e.1
    let e' : Ent := (e.1, ⟨e.2.val, g e.1 e.2 sn⟩)
    let out := genEnts g mkS (done ++ [e']) rest
    (out.1, (e.1, sn) :: out.2)

/-- The generate-rate phase over the persistent layers (core.rs 729-736),
volatile layers `vs` visible unchanged in every snapshot. -/
def genLayersP (b : SimBehavior) (vs : List SimLayer) :
    List SimLayer → List SimLayer → List SimLayer × List (Nat × Snap)
  | pdone, [] => (pdone, [])
  | pdone, (name, es) :: prest =>
    let out1 := genEnts b.pgen
      (fun cs cur => mkSnap (pdone ++ (name, cs) :: prest) vs cur) [] es
    let out2 := genLayersP b vs (pdone ++ [(name, out1.1)]) prest
    (out2.1, out1.2 ++ out2.2)

/-- The generate-rate phase over the volatile layers (core.rs 737-741),
persistent layers `ps` (already updated) visible in every snapshot. -/
def genLayersV (b : SimBehavior) (ps : List SimLayer) :
    List SimLayer → List SimLayer → List SimLayer × List (Nat × Snap)
  | vdone, [] => (vdone, [])
  | vdone, (name, es) :: vrest =>
    let out1 := genEnts b.vgen
      (fun cs cur => mkSnap ps (vdone ++ (name, cs) :: vrest) cur) [] es
    let out2 := genLayersV b ps (vdone ++ [(name, out1.1)]) vrest
    (out2.1, out1.2 ++ out2.2)

/-- The apply-rate phase (core.rs 743-756): every object commits its rate;
`apply_rate(&mut self)` sees no other object. -/
def applyLayers (f : Nat → SimObj → SimObj) (ls : List SimLayer) : List SimLayer :=
  ls.map (fun l => (l.1, l.2.map (fun e => (e.1, f e.1 e.2))))

/-- The apply-spawns/despawn loop over one layer (core.rs 761-780): slots
are visited in reverse index order; each reports its spawn requests (always
collected) and its liveliness (despawned slots are removed in place).
Returns the survivors in order, the collected persistent and volatile spawn
requests in collection order, and the check events in visit order. -/
def despawnEnts (alv : Nat → SimObj → Bool) (spP spV : Nat → SimObj → List (Nat × List Ent)) :
    List Ent → List Ent × List (Nat × List Ent) × List (Nat × List Ent) × List Ev
  | [] => ([], [], [], [])
  | e :: rest =>
    let out := despawnEnts alv spP spV rest
    ((if alv e.1 e.2 then e :: out.1 else out.1),
     out.2.1 ++ spP e.1 e.2,
     out.2.2.1 ++ spV e.1 e.2,
     out.2.2.2 ++ [Ev.check e.1])

/-- The apply-spawns/despawn phase over a registry's layers, in layer
iteration order. -/
def despawnLayers (alv : Nat → SimObj → Bool) (spP spV : Nat → SimObj → List (Nat × List Ent)) :
    List SimLayer → List SimLayer × List (Nat × List Ent) × List (Nat × List Ent) × List Ev
  | [] => ([], [], [], [])
  | (name, es) :: rest =>
    let a := despawnEnts alv spP spV es
    let c := despawnLayers alv spP spV rest
    ((name, a.1) :: c.1,
     a.2.1 ++ c.2.1,
     a.2.2.1 ++ c.2.2.1,
     a.2.2.2 ++ c.2.2.2)

/-- Appending one collected spawn request to its target layer
(core.rs 799-816).  The Rust panics on an unregistered target layer; here
the request is dropped, and the theorems assume registered targets. -/
def insertSpawn (ls : List SimLayer) (s : Nat × List Ent) : List SimLayer :=
  ls.map (fun l => if l.1 == s.1 then (l.1, l.2 ++ s.2) else l)

/-- The spawn-insertion phase: requests are applied in collection order. -/
def insertSpawns (ls : List SimLayer) (sps : List (Nat × List Ent)) : List SimLayer :=
  sps.foldl insertSpawn ls

/-- Both registries of the running game. -/
structure SimState where
  players : List SimLayer
  vlayers : List SimLayer
deriving DecidableEq

/-- The slot identities of a registry's layers in iteration order. -/
def flatSids (ls : List SimLayer) : List Nat := ls.flatMap (fun l => l.2.map (·.1))

/-- Every entity of the game in phase order (persistent, then volatile). -/
def allEnts (s : SimState) : List Ent := (s.players ++ s.vlayers).flatMap (·.2)

/-- Every slot identity of the game in phase order. -/
def allSids (s : SimState) : List Nat := flatSids s.players ++ flatSids s.vlayers

/-- Total number of live objects across both registries. -/
def totalCount (s : SimState) : Nat := (allEnts s).length

/-- The result of one frame: the next state, the trace of entity-method
events in call order, every generate-rate call's snapshot, and the spawn
requests collected this frame. -/
structure FrameOut where
  state : SimState
  trace : List Ev
  calls : List (Nat × Snap)
  spawnedP : List (Nat × List Ent)
  spawnedV : List (Nat × List Ent)
deriving DecidableEq

/-- One iteration of the `GameState::run` loop body (core.rs 728-830),
after event handling and before rendering: generate rates over all
persistent then all volatile layers, apply rates likewise, run the
apply-spawns/despawn pass over both registries, then append the collected
spawns (persistent requests first, volatile requests — from both loops, in
collection order — second). -/
def frame (b : SimBehavior) (s : SimState) : FrameOut :=
  let g1 := genLayersP b s.vlayers [] s.players
  let g2 := genLayersV b g1.1 [] s.vlayers
  let ps2 := applyLayers b.papply g1.1
  let vs2 := applyLayers b.vapply g2.1
  let d1 := despawnLayers b.palive b.pspawnP b.pspawnV ps2
  let d2 := despawnLayers b.valive (fun _ _ => []) b.vspawnV vs2
  let pSp := d1.2.1
  let vSp := d1.2.2.1 ++ d2.2.2.1
  let ps4 := insertSpawns d1.1 pSp
  let vs4 := insertSpawns d2.1 vSp
  let genEvs := (g1.2 ++ g2.2).map (fun c => Ev.gen c.1)
  let appEvs := (flatSids g1.1 ++ flatSids g2.1).map Ev.app
  let chkEvs := d1.2.2.2 ++ d2.2.2.2
  let insEvs := ((pSp ++ vSp).flatMap (·.2)).map (fun e => Ev.ins e.1)
  ⟨⟨ps4, vs4⟩, genEvs ++ appEvs ++ chkEvs ++ insEvs, g1.2 ++ g2.2, pSp, vSp⟩

/-- The identities of the objects spawned by this frame. -/
def spawnedSids (out : FrameOut) : List Nat :=
  ((out.spawnedP ++ out.spawnedV).flatMap (·.2)).map (·.1)

/-- The slot identity and visible state (`val`) of each entity, in order:
what the generate-rate phase leaves untouched while it stashes rates. -/
def vmapEnts (es : List Ent) : List (Nat × Nat) := es.map (fun e => (e.1, e.2.val))

/-- Per-layer `vmapEnts`, keeping the layer names. -/
def vmapLayers (ls : List SimLayer) : List (Nat × List (Nat × Nat)) :=
  ls.map (fun l => (l.1, vmapEnts l.2))

/-- The contract of every take/restore operation on slot `sid`: afterwards
the slot is occupied again, every other slot is untouched, and a fully
occupied heap stays fully occupied. -/
def restoresSlot (h h' : Heap α) (sid : SlotId) : Prop :=
  (∃ e', h'.upgrade sid = some (some e')) ∧
  (∀ sid', sid' ≠ sid → h'.upgrade sid' = h.upgrade sid') ∧
  (h.occupied → h'.occupied)

/-! ## Concrete example data

A small registry exercising every interesting reference shape, used to
instantiate the theorems below on closed inputs. -/

/-- Two layers; slots 10 and 20 form a reference cycle of length 2, slot 20
also holds a self-reference, and slot 30 holds an unset reference, a
dangling reference, and a reference to the despawned slot 99. -/
def exampleLayers : PLayers :=
  [(0, [PEntity.mk 10 ⟨100, [MaybePersistentRef.Some 20]⟩,
        PEntity.mk 20 ⟨200, [MaybePersistentRef.Some 10, MaybePersistentRef.Some 20]⟩]),
   (1, [PEntity.mk 30 ⟨300, [MaybePersistentRef.None, MaybePersistentRef.Despawned,
        MaybePersistentRef.Some 99]⟩])]

/-- A game state owning `exampleLayers`, with empty volatile layers. -/
def exampleGame : GameState :=
  GameState.mk [0, 1] ⟨exampleLayers⟩ [(0, []), (1, [])] 0 0

/-- A concrete behavior for exercising the frame theorems: rates are
stashed from current values, everything stays alive, and the persistent
object in slot 2 spawns one new persistent object (fresh slot 77) into
layer 3. -/
def exampleBehavior : SimBehavior where
  pgen := fun _ o _ => o.val
  papply := fun _ o => SimObj.mk (o.val + o.rate) 0
  palive := fun _ _ => true
  pspawnP := fun sid _ => if sid == 2 then [(3, [(77, SimObj.mk 9 0)])] else []
  pspawnV := fun _ _ => []
  vgen := fun _ o _ => o.rate
  vapply := fun _ o => o
  valive := fun _ _ => true
  vspawnV := fun _ _ => []

/-- A concrete game: persistent layers 3 and 5 with slots 1 and 2, volatile
layers 3 and 5 with slot 4. -/
def exampleSim : SimState :=
  SimState.mk [(3, [(1, SimObj.mk 10 0), (2, SimObj.mk 20 0)]), (5, [])]
    [(3, [(4, SimObj.mk 1 0)]), (5, [])]

/-! # Theorems

## Generic list lemmas -/

theorem posOf_eq_none (l : List Nat) (a : Nat) :
    posOf l a = Option.none ↔ a ∉ l := by
  induction l with
  | nil => simp [posOf]
  | cons x xs ih =>
    by_cases hx : x = a
    · subst hx; simp [posOf]
    · simp only [posOf, hx, if_false, List.mem_cons]
      rw [Option.map_eq_none', ih]
      constructor
      · intro h hc
        rcases hc with he | hm
        · exact hx he.symm
        · exact h hm
      · intro h hm
        exact h (Or.inr hm)

theorem posOf_getElem (l : List Nat) (a : Nat) (p : Nat)
    (h : posOf l a = some p) : l[p]? = some a := by
  induction l generalizing p with
  | nil => simp [posOf] at h
  | cons x xs ih =>
    by_cases hx : x = a
    · subst hx
      rw [show posOf (x :: xs) x = some 0 by simp [posOf]] at h
      simp only [Option.some.injEq] at h
      subst h; simp
    · simp only [posOf, hx, if_false] at h
      cases hp : posOf xs a with
      | none => rw [hp] at h; exact absurd h (by simp)
      | some q =>
        rw [hp] at h
        simp only [Option.map_some', Option.some.injEq] at h
        subst h
        simpa using ih q hp

theorem posOf_lt_length (l : List Nat) (a : Nat) (p : Nat)
    (h : posOf l a = some p) : p < l.length := by
  have := posOf_getElem l a p h
  exact (List.getElem?_eq_some.mp this).1

theorem posOf_of_getElem (l : List Nat) (hnd : l.Nodup) (a : Nat) (p : Nat)
    (h : l[p]? = some a) : posOf l a = some p := by
  induction l generalizing p with
  | nil => simp at h
  | cons x xs ih =>
    cases p with
    | zero =>
      simp at h
      subst h; simp [posOf]
    | succ q =>
      simp only [List.getElem?_cons_succ] at h
      have hx : x ≠ a := by
        intro hEq; subst hEq
        exact (List.nodup_cons.mp hnd).1 (List.getElem?_mem h)
      simp [posOf, hx, ih (List.nodup_cons.mp hnd).2 q h]

theorem posOf_range' (n k u : Nat) :
    posOf (List.range' k n) u =
      if k ≤ u ∧ u < k + n then some (u - k) else Option.none := by
  induction n generalizing k with
  | zero =>
    simp only [List.range'_zero, posOf]
    rw [if_neg]; omega
  | succ m ih =>
    simp only [List.range'_succ, posOf]
    by_cases hk : k = u
    · subst hk
      rw [if_pos rfl, if_pos (by omega)]
      simp
    · rw [if_neg hk, ih (k + 1)]
      by_cases hin : k + 1 ≤ u ∧ u < k + 1 + m
      · rw [if_pos hin, if_pos (by omega)]
        simp only [Option.map_some', Option.some.injEq]
        omega
      · rw [if_neg hin, if_neg (by omega)]
        simp

theorem find?_eq_posOf (f : β → Nat) (l : List β) (u : Nat) :
    l.find? (fun b => f b == u) = (posOf (l.map f) u).bind (fun p => l[p]?) := by
  induction l with
  | nil => simp [posOf]
  | cons b t ih =>
    by_cases hb : f b = u
    · simp [List.find?_cons, hb, posOf]
    · rw [List.find?_cons_of_neg _ (by simpa using hb)]
      simp only [List.map_cons, posOf, hb, if_false]
      rw [ih]
      cases posOf (t.map f) u with
      | none => simp
      | some p => simp

theorem optionMapAll_map_some (f : α → Option β) (g : α → β) (l : List α)
    (h : ∀ a ∈ l, f a = some (g a)) : optionMapAll f l = some (l.map g) := by
  induction l with
  | nil => simp [optionMapAll]
  | cons a t ih =>
    simp only [optionMapAll, h a (List.mem_cons_self a t),
      ih (fun x hx => h x (List.mem_cons_of_mem a hx)), List.map_cons]

theorem optionMapAll_forall₂ (f : α → Option β) (l : List α) (l' : List β)
    (h : optionMapAll f l = some l') :
    List.Forall₂ (fun a b => f a = some b) l l' := by
  induction l generalizing l' with
  | nil =>
    simp only [optionMapAll, Option.some.injEq] at h
    subst h; exact List.Forall₂.nil
  | cons a t ih =>
    simp only [optionMapAll] at h
    cases hfa : f a with
    | none => rw [hfa] at h; simp at h
    | some b =>
      rw [hfa] at h
      cases hrec : optionMapAll f t with
      | none => rw [hrec] at h; simp at h
      | some t' =>
        rw [hrec] at h
        simp only [Option.some.injEq] at h
        subst h
        exact List.Forall₂.cons hfa (ih t' hrec)

theorem layers_ext {κ ε : Type} (L₁ L₂ : List (κ × List ε))
    (hk : L₁.map (·.1) = L₂.map (·.1))
    (hl : L₁.map (fun kv => kv.2.length) = L₂.map (fun kv => kv.2.length))
    (hf : L₁.flatMap (·.2) = L₂.flatMap (·.2)) : L₁ = L₂ := by
  induction L₁ generalizing L₂ with
  | nil => cases L₂ <;> simp_all
  | cons a t ih =>
    cases L₂ with
    | nil => simp at hk
    | cons a' t' =>
      simp only [List.map_cons, List.cons.injEq] at hk hl
      simp only [List.flatMap_cons] at hf
      have h2 : a.2 = a'.2 ∧ t.flatMap (·.2) = t'.flatMap (·.2) :=
        List.append_inj hf (by rw [hl.1])
      have ha : a = a' := Prod.ext hk.1 h2.1
      rw [ha, ih t' hk.2 hl.2 h2.2]

/-! ## Characterizing the save pass -/

theorem tagSlots_length (n : Nat) (l : List PEntity) :
    (tagSlots n l).length = l.length := by
  induction l generalizing n with
  | nil => rfl
  | cons e rest ih => simp [tagSlots, ih]

theorem tagSlots_append (n : Nat) (l₁ l₂ : List PEntity) :
    tagSlots n (l₁ ++ l₂) = tagSlots n l₁ ++ tagSlots (n + l₁.length) l₂ := by
  induction l₁ generalizing n with
  | nil => simp [tagSlots]
  | cons e rest ih =>
    rw [show (e :: rest) ++ l₂ = e :: (rest ++ l₂) from rfl,
      show tagSlots n (e :: (rest ++ l₂))
        = TaggedPersistent.mk e n [] :: tagSlots (n + 1) (rest ++ l₂) from rfl,
      ih (n + 1),
      show tagSlots n (e :: rest)
        = TaggedPersistent.mk e n [] :: tagSlots (n + 1) rest from rfl,
      show n + 1 + rest.length = n + (e :: rest).length from by simp; omega]
    rfl

theorem tagSlots_getElem (n : Nat) (l : List PEntity) (i : Nat) :
    (tagSlots n l)[i]? = (l[i]?).map (fun e => TaggedPersistent.mk e (n + i) []) := by
  induction l generalizing n i with
  | nil => simp [tagSlots]
  | cons e rest ih =>
    cases i with
    | zero => simp [tagSlots]
    | succ j =>
      simp only [tagSlots, List.getElem?_cons_succ, ih (n + 1) j]
      cases h : rest[j]? with
      | none => simp
      | some e' =>
        simp only [Option.map_some']
        rw [show n + 1 + j = n + (j + 1) from by omega]

theorem tagSlots_map_sid (n : Nat) (l : List PEntity) :
    (tagSlots n l).map (fun t => t.e.sid) = l.map (·.sid) := by
  induction l generalizing n with
  | nil => rfl
  | cons e rest ih => simp [tagSlots, ih]

theorem tagSlots_map_tag (n : Nat) (l : List PEntity) :
    (tagSlots n l).map (·.tag) = List.range' n l.length := by
  induction l generalizing n with
  | nil => rfl
  | cons e rest ih => simp [tagSlots, ih, List.range'_succ]

theorem tagLayers_keys (n : Nat) (L : PLayers) :
    (tagLayers n L).map (·.1) = L.map (·.1) := by
  induction L generalizing n with
  | nil => rfl
  | cons kv rest ih =>
    obtain ⟨k, es⟩ := kv
    simp [tagLayers, ih]

theorem tagLayers_lengths (n : Nat) (L : PLayers) :
    (tagLayers n L).map (fun kv => kv.2.length) = L.map (fun kv => kv.2.length) := by
  induction L generalizing n with
  | nil => rfl
  | cons kv rest ih =>
    obtain ⟨k, es⟩ := kv
    simp [tagLayers, ih, tagSlots_length]

theorem tagLayers_flat (n : Nat) (L : PLayers) :
    (tagLayers n L).flatMap (·.2) = tagSlots n (flatEnts L) := by
  induction L generalizing n with
  | nil => rfl
  | cons kv rest ih =>
    obtain ⟨k, es⟩ := kv
    simp only [tagLayers, List.flatMap_cons, ih, flatEnts, tagSlots_append]

theorem alive_iff (L : PLayers) (sid : SlotId) :
    alive L sid = true ↔ sid ∈ slotIds L := by
  simp [alive]

theorem alive_posOf (L : PLayers) (sid : SlotId) :
    alive L sid = true ↔ ∃ p, posOf (slotIds L) sid = some p := by
  rw [alive_iff]
  constructor
  · intro h
    cases hp : posOf (slotIds L) sid with
    | none => exact absurd h ((posOf_eq_none _ _).mp hp)
    | some p => exact ⟨p, rfl⟩
  · rintro ⟨p, hp⟩
    by_contra hmem
    rw [← posOf_eq_none (slotIds L) sid] at hmem
    rw [hmem] at hp
    cases hp

theorem lookup_tag_eq (L : PLayers) (sid : SlotId) :
    lookup_tag (tagLayers 0 L) sid = posOf (slotIds L) sid := by
  unfold lookup_tag
  rw [tagLayers_flat]
  have hfind := find?_eq_posOf (fun t : TaggedPersistent => t.e.sid)
    (tagSlots 0 (flatEnts L)) sid
  rw [hfind, tagSlots_map_sid]
  show ((posOf (slotIds L) sid).bind _).map _ = _
  cases hp : posOf (slotIds L) sid with
  | none => simp
  | some p =>
    have hlt : p < (flatEnts L).length := by
      have := posOf_lt_length _ _ _ hp
      simpa [slotIds] using this
    obtain ⟨e, he⟩ : ∃ e, (flatEnts L)[p]? = some e :=
      ⟨_, List.getElem?_eq_getElem hlt⟩
    simp [tagSlots_getElem, he]

theorem encodeRef_eq (L : PLayers) (r : MaybePersistentRef) :
    encodeRef L (tagLayers 0 L) r = some (encodeRefT L r) := by
  cases r with
  | None => rfl
  | Despawned => rfl
  | Some sid =>
    by_cases ha : alive L sid = true
    · obtain ⟨p, hp⟩ := (alive_posOf L sid).mp ha
      simp [encodeRef, encodeRefT, ha, lookup_tag_eq, hp]
    · have hn : posOf (slotIds L) sid = Option.none := by
        rw [posOf_eq_none]
        intro hmem
        exact ha ((alive_iff L sid).mpr hmem)
      simp [encodeRef, encodeRefT, ha, hn]

theorem serialize_eq_docOf (L : PLayers) : serialize_layers L = some (docOf L) := by
  show optionMapAll (fun kv =>
    (optionMapAll (fun t =>
      (optionMapAll (encodeRef L (tagLayers 0 L)) t.e.obj.refs).map
        (fun rs => TaggedDocEntity.mk t.e.obj.data t.tag rs)) kv.2).map
      (fun es => (kv.1, es))) (tagLayers 0 L) = some (docOf L)
  unfold docOf
  apply optionMapAll_map_some
  intro kv _
  have h2 : optionMapAll (fun t =>
      (optionMapAll (encodeRef L (tagLayers 0 L)) t.e.obj.refs).map
        (fun rs => TaggedDocEntity.mk t.e.obj.data t.tag rs)) kv.2
      = some (kv.2.map (fun t =>
          TaggedDocEntity.mk t.e.obj.data t.tag (t.e.obj.refs.map (encodeRefT L)))) := by
    apply optionMapAll_map_some
    intro t _
    rw [optionMapAll_map_some _ (encodeRefT L) _ (fun r _ => encodeRef_eq L r)]
    rfl
  rw [h2]
  rfl

theorem docOf_keys (L : PLayers) : (docOf L).map (·.1) = L.map (·.1) := by
  unfold docOf
  rw [List.map_map]
  simp only [Function.comp_def]
  exact tagLayers_keys 0 L

theorem docOf_lengths (L : PLayers) :
    (docOf L).map (fun kv => kv.2.length) = L.map (fun kv => kv.2.length) := by
  unfold docOf
  rw [List.map_map]
  simp only [Function.comp_def, List.length_map]
  exact tagLayers_lengths 0 L

theorem flatDoc_docOf (L : PLayers) :
    flatDoc (docOf L) = (tagSlots 0 (flatEnts L)).map
      (fun t => TaggedDocEntity.mk t.e.obj.data t.tag (t.e.obj.refs.map (encodeRefT L))) := by
  unfold flatDoc docOf
  rw [List.flatMap_map, ← tagLayers_flat 0 L, List.map_flatMap]

theorem flatDoc_docOf_getElem (L : PLayers) (j : Nat) :
    (flatDoc (docOf L))[j]? = ((flatEnts L)[j]?).map
      (fun e => TaggedDocEntity.mk e.obj.data j (e.obj.refs.map (encodeRefT L))) := by
  rw [flatDoc_docOf, List.getElem?_map, tagSlots_getElem]
  cases h : (flatEnts L)[j]? <;> simp

theorem docOf_tags (L : PLayers) :
    (flatDoc (docOf L)).map (·.tag) = List.range (flatEnts L).length := by
  rw [flatDoc_docOf, List.map_map, List.range_eq_range']
  have := tagSlots_map_tag 0 (flatEnts L)
  simpa using this

/-! ## Characterizing the load pass -/

theorem freshSlots_length (n : Nat) (ds : List TaggedDocEntity) :
    (freshSlots n ds).length = ds.length := by
  induction ds generalizing n with
  | nil => rfl
  | cons d rest ih => simp [freshSlots, ih]

theorem freshSlots_append (n : Nat) (ds₁ ds₂ : List TaggedDocEntity) :
    freshSlots n (ds₁ ++ ds₂) = freshSlots n ds₁ ++ freshSlots (n + ds₁.length) ds₂ := by
  induction ds₁ generalizing n with
  | nil => simp [freshSlots]
  | cons d rest ih =>
    rw [show (d :: rest) ++ ds₂ = d :: (rest ++ ds₂) from rfl,
      show freshSlots n (d :: (rest ++ ds₂))
        = (n, d) :: freshSlots (n + 1) (rest ++ ds₂) from rfl,
      ih (n + 1),
      show freshSlots n (d :: rest) = (n, d) :: freshSlots (n + 1) rest from rfl,
      show n + 1 + rest.length = n + (d :: rest).length from by simp; omega]
    rfl

theorem freshSlots_getElem (n : Nat) (ds : List TaggedDocEntity) (i : Nat) :
    (freshSlots n ds)[i]? = (ds[i]?).map (fun d => (n + i, d)) := by
  induction ds generalizing n i with
  | nil => simp [freshSlots]
  | cons d rest ih =>
    cases i with
    | zero => simp [freshSlots]
    | succ j =>
      simp only [freshSlots, List.getElem?_cons_succ, ih (n + 1) j]
      cases h : rest[j]? with
      | none => simp
      | some d' =>
        simp only [Option.map_some']
        rw [show n + 1 + j = n + (j + 1) from by omega]

theorem freshSlots_map_snd (n : Nat) (ds : List TaggedDocEntity) :
    (freshSlots n ds).map (·.2) = ds := by
  induction ds generalizing n with
  | nil => rfl
  | cons d rest ih => simp [freshSlots, ih]

theorem freshSlots_map_tag (n : Nat) (ds : List TaggedDocEntity) :
    (freshSlots n ds).map (fun p => p.2.tag) = ds.map (·.tag) := by
  induction ds generalizing n with
  | nil => rfl
  | cons d rest ih => simp [freshSlots, ih]

theorem freshLayers_keys (n : Nat) (doc : Doc) :
    (freshLayers n doc).map (·.1) = doc.map (·.1) := by
  induction doc generalizing n with
  | nil => rfl
  | cons kv rest ih =>
    obtain ⟨k, ds⟩ := kv
    simp [freshLayers, ih]

theorem freshLayers_lengths (n : Nat) (doc : Doc) :
    (freshLayers n doc).map (fun kv => kv.2.length) = doc.map (fun kv => kv.2.length) := by
  induction doc generalizing n with
  | nil => rfl
  | cons kv rest ih =>
    obtain ⟨k, ds⟩ := kv
    simp [freshLayers, ih, freshSlots_length]

theorem freshLayers_flat (n : Nat) (doc : Doc) :
    (freshLayers n doc).flatMap (·.2) = freshSlots n (flatDoc doc) := by
  induction doc generalizing n with
  | nil => rfl
  | cons kv rest ih =>
    obtain ⟨k, ds⟩ := kv
    simp only [freshLayers, List.flatMap_cons, ih, flatDoc, freshSlots_append]

theorem mem_referenced_tags (doc : Doc) (d : TaggedDocEntity) (u : Nat)
    (hd : d ∈ flatDoc doc) (ht : Tag.Some u ∈ d.refs) :
    u ∈ referenced_tags doc := by
  unfold referenced_tags
  rw [List.mem_flatMap]
  refine ⟨d, hd, ?_⟩
  rw [List.mem_filterMap]
  exact ⟨Tag.Some u, ht, rfl⟩

theorem mem_flatDoc_of_mem_fresh {doc : Doc}
    {kv : LayerName × List (SlotId × TaggedDocEntity)} {p : SlotId × TaggedDocEntity}
    (hkv : kv ∈ freshLayers 0 doc) (hp : p ∈ kv.2) : p.2 ∈ flatDoc doc := by
  have hall : p ∈ (freshLayers 0 doc).flatMap (·.2) :=
    List.mem_flatMap.mpr ⟨kv, hkv, hp⟩
  rw [freshLayers_flat] at hall
  have := List.mem_map_of_mem (·.2) hall
  rwa [freshSlots_map_snd] at this

theorem validTags_docOf (L : PLayers) (d : TaggedDocEntity) (u : Nat)
    (hd : d ∈ flatDoc (docOf L)) (ht : Tag.Some u ∈ d.refs) :
    u < (flatEnts L).length := by
  rw [flatDoc_docOf] at hd
  obtain ⟨t, _, rfl⟩ := List.mem_map.mp hd
  simp only [List.mem_map] at ht
  obtain ⟨r, _, hr⟩ := ht
  cases r with
  | None => cases hr
  | Despawned => cases hr
  | Some sid =>
    simp only [encodeRefT] at hr
    cases hp : posOf (slotIds L) sid with
    | none => rw [hp] at hr; cases hr
    | some p =>
      rw [hp] at hr
      cases hr
      have := posOf_lt_length _ _ _ hp
      simpa [slotIds] using this

theorem flatDoc_docOf_length (L : PLayers) :
    (flatDoc (docOf L)).length = (flatEnts L).length := by
  rw [flatDoc_docOf, List.length_map, tagSlots_length]

theorem lookup_entity_docOf (L : PLayers) (u : Nat)
    (hu : u < (flatEnts L).length) (hmem : u ∈ referenced_tags (docOf L)) :
    lookup_entity (freshLayers 0 (docOf L)) (referenced_tags (docOf L)) u = some u := by
  unfold lookup_entity
  rw [if_pos (List.elem_iff.mpr hmem), freshLayers_flat,
    find?_eq_posOf (fun p : SlotId × TaggedDocEntity => p.2.tag),
    freshSlots_map_tag, docOf_tags, List.range_eq_range', posOf_range' _ 0 u,
    if_pos (by omega)]
  have hd : (flatDoc (docOf L))[u]? = some ((flatDoc (docOf L)).get ⟨u, by
      rw [flatDoc_docOf_length]; exact hu⟩) := by
    exact List.getElem?_eq_getElem _
  simp [freshSlots_getElem, hd]

theorem tagImage_encodeRefT (L : PLayers) (r : MaybePersistentRef) :
    tagImage (encodeRefT L r) = refImage L r := by
  cases r with
  | None => rfl
  | Despawned => rfl
  | Some sid =>
    simp only [encodeRefT, refImage]
    cases hp : posOf (slotIds L) sid <;> simp [tagImage]

theorem deserialize_eq_loadImage (L : PLayers) :
    deserialize_layers (docOf L) = some (loadImage L) := by
  show optionMapAll (fun kv =>
    (optionMapAll (fun (p : SlotId × TaggedDocEntity) =>
      (optionMapAll (decodeRef
          (lookup_entity (freshLayers 0 (docOf L)) (referenced_tags (docOf L)))) p.2.refs).map
        (fun rs => PEntity.mk p.1 ⟨p.2.data, rs⟩)) kv.2).map
      (fun es => (kv.1, es))) (freshLayers 0 (docOf L)) = some (loadImage L)
  unfold loadImage
  apply optionMapAll_map_some
  intro kv hkv
  have h2 : optionMapAll (fun (p : SlotId × TaggedDocEntity) =>
      (optionMapAll (decodeRef
          (lookup_entity (freshLayers 0 (docOf L)) (referenced_tags (docOf L)))) p.2.refs).map
        (fun rs => PEntity.mk p.1 ⟨p.2.data, rs⟩)) kv.2
      = some (kv.2.map (fun p => PEntity.mk p.1 ⟨p.2.data, p.2.refs.map tagImage⟩)) := by
    apply optionMapAll_map_some
    intro p hp
    have h3 : optionMapAll (decodeRef
        (lookup_entity (freshLayers 0 (docOf L)) (referenced_tags (docOf L)))) p.2.refs
        = some (p.2.refs.map tagImage) := by
      apply optionMapAll_map_some
      intro t ht
      cases t with
      | None => rfl
      | Despawned => rfl
      | Some u =>
        have hdoc : p.2 ∈ flatDoc (docOf L) := mem_flatDoc_of_mem_fresh hkv hp
        have hu : u < (flatEnts L).length := validTags_docOf L p.2 u hdoc ht
        have hmem : u ∈ referenced_tags (docOf L) := mem_referenced_tags _ _ _ hdoc ht
        simp [decodeRef, tagImage, lookup_entity_docOf L u hu hmem]
    rw [h3]
    rfl
  rw [h2]
  rfl

theorem loadImage_keys (L : PLayers) : (loadImage L).map (·.1) = L.map (·.1) := by
  unfold loadImage
  rw [List.map_map]
  simp only [Function.comp_def]
  rw [freshLayers_keys, docOf_keys]

theorem loadImage_lengths (L : PLayers) :
    (loadImage L).map (fun kv => kv.2.length) = L.map (fun kv => kv.2.length) := by
  unfold loadImage
  rw [List.map_map]
  simp only [Function.comp_def, List.length_map]
  rw [freshLayers_lengths, docOf_lengths]

theorem flatEnts_loadImage (L : PLayers) :
    flatEnts (loadImage L) = (freshSlots 0 (flatDoc (docOf L))).map
      (fun p => PEntity.mk p.1 ⟨p.2.data, p.2.refs.map tagImage⟩) := by
  unfold flatEnts loadImage
  rw [List.flatMap_map, ← freshLayers_flat 0 (docOf L), List.map_flatMap]

theorem flatEnts_loadImage_getElem (L : PLayers) (j : Nat) :
    (flatEnts (loadImage L))[j]? = ((flatEnts L)[j]?).map
      (fun e => PEntity.mk j ⟨e.obj.data, e.obj.refs.map (refImage L)⟩) := by
  rw [flatEnts_loadImage, List.getElem?_map, freshSlots_getElem, flatDoc_docOf_getElem]
  cases h : (flatEnts L)[j]? with
  | none => simp
  | some e =>
    simp only [Option.map_some', Option.some.injEq]
    have hmm : (e.obj.refs.map (encodeRefT L)).map tagImage
        = e.obj.refs.map (refImage L) := by
      rw [List.map_map]
      exact List.map_congr_left (fun r _ => tagImage_encodeRefT L r)
    rw [Nat.zero_add, hmm]

/-! ## `replace` and `load` -/

theorem replace_map_reconstruct {L₁ L₂ : PLayers}
    (hk : L₁.map (·.1) = L₂.map (·.1)) (hnd : (L₁.map (·.1)).Nodup) :
    L₂.map (fun kv => (kv.1,
      match L₁.find? (fun kv' => kv'.1 == kv.1) with
      | some l => l.2
      | Option.none => [])) = L₁ := by
  induction L₂ generalizing L₁ with
  | nil =>
    cases L₁ with
    | nil => rfl
    | cons a t => simp at hk
  | cons a₂ t₂ ih =>
    cases L₁ with
    | nil => simp at hk
    | cons a₁ t₁ =>
      simp only [List.map_cons, List.cons.injEq] at hk
      obtain ⟨hk1, hk2⟩ := hk
      rw [List.map_cons] at hnd
      have hnd' := List.nodup_cons.mp hnd
      have hfind : (a₁ :: t₁).find? (fun kv' => kv'.1 == a₂.1) = some a₁ :=
        List.find?_cons_of_pos _ (by simp [hk1])
      have hcongr : ∀ kv ∈ t₂,
          (fun kv => (kv.1,
            match (a₁ :: t₁).find? (fun kv' => kv'.1 == kv.1) with
            | some l => l.2
            | Option.none => [])) kv
          = (fun kv => (kv.1,
            match t₁.find? (fun kv' => kv'.1 == kv.1) with
            | some l => l.2
            | Option.none => [])) kv := by
        intro kv hkv
        have hne : a₁.1 ≠ kv.1 := by
          intro he
          apply hnd'.1
          rw [he, hk2]
          exact List.mem_map_of_mem (·.1) hkv
        have hfneg : List.find? (fun kv' => kv'.1 == kv.1) (a₁ :: t₁)
            = List.find? (fun kv' => kv'.1 == kv.1) t₁ :=
          List.find?_cons_of_neg _ (by simp [hne])
        simp only [hfneg]
      simp only [List.map_cons, hfind]
      rw [List.map_congr_left hcongr, ih hk2 hnd'.2]
      exact congrArg (· :: t₁) (Prod.ext hk1.symm rfl)

theorem replace_ok {incoming : PLayers} {st : PersistentState}
    (hk : incoming.map (·.1) = st.persistent_layers.map (·.1))
    (hnd : (incoming.map (·.1)).Nodup) :
    replace incoming st = (⟨incoming⟩, Option.none) := by
  unfold replace
  rw [if_pos hk, replace_map_reconstruct hk hnd]

theorem replace_mismatch {incoming : PLayers} {st : PersistentState}
    (h : incoming.map (·.1) ≠ st.persistent_layers.map (·.1)) :
    replace incoming st
      = (st, some "loaded save file does not contain correct render layers") := by
  unfold replace
  rw [if_neg h]

theorem load_ok {g : GameState} {doc : Doc} {incoming : PLayers}
    (hds : deserialize_layers doc = some incoming)
    (hk : incoming.map (·.1) = g.persistent_state.persistent_layers.map (·.1))
    (hnd : (incoming.map (·.1)).Nodup) :
    GameState.load g (Except.ok doc)
      = ({ g with persistent_state := ⟨incoming⟩ }, LoadOutcome.ok) := by
  simp only [GameState.load, hds, replace_ok hk hnd]

theorem load_mismatch {g : GameState} {doc : Doc} {incoming : PLayers}
    (hds : deserialize_layers doc = some incoming)
    (hk : incoming.map (·.1) ≠ g.persistent_state.persistent_layers.map (·.1)) :
    GameState.load g (Except.ok doc)
      = (g, LoadOutcome.err "loaded save file does not contain correct render layers") := by
  simp only [GameState.load, hds, replace_mismatch hk]

/-! ## A pointwise characterization of deserialization of arbitrary documents -/

theorem forall₂_getElem {R : α → β → Prop} {l₁ : List α} {l₂ : List β}
    (h : List.Forall₂ R l₁ l₂) (i : Nat) (a : α) (ha : l₁[i]? = some a) :
    ∃ b, l₂[i]? = some b ∧ R a b := by
  induction h generalizing i with
  | nil => simp at ha
  | cons hr _ ih =>
    cases i with
    | zero =>
      simp only [List.getElem?_cons_zero, Option.some.injEq] at ha
      subst ha
      exact ⟨_, by simp, hr⟩
    | succ j =>
      simp only [List.getElem?_cons_succ] at ha ⊢
      exact ih j ha

theorem forall₂_flatMap' {R : γ → δ → Prop} {f : α → List γ} {g : β → List δ}
    {l₁ : List α} {l₂ : List β}
    (h : List.Forall₂ (fun a b => List.Forall₂ R (f a) (g b)) l₁ l₂) :
    List.Forall₂ R (l₁.flatMap f) (l₂.flatMap g) := by
  induction h with
  | nil => simp
  | cons hr _ ih =>
    simp only [List.flatMap_cons]
    exact List.rel_append hr ih

theorem forall₂_map_eq {f : α → γ} {g : β → γ} {l₁ : List α} {l₂ : List β}
    (h : List.Forall₂ (fun a b => g b = f a) l₁ l₂) :
    l₂.map g = l₁.map f := by
  induction h with
  | nil => rfl
  | cons hr _ ih => simp [hr, ih]

/-- What a successful `deserialize_layers` run produces, for an arbitrary
document: the layer keys and per-layer counts of the document, and for the
`j`-th record of the document an entity in fresh slot `j` whose payload is
the record's and whose reference list decodes the record's tags pointwise
(in particular `Tag::Despawned` becomes `MaybePersistentRef::Despawned` and
`Tag::None` becomes `MaybePersistentRef::None`). -/
theorem deserialize_char (doc : Doc) (L'' : PLayers)
    (h : deserialize_layers doc = some L'') :
    L''.map (·.1) = doc.map (·.1) ∧
    L''.map (fun kv => kv.2.length) = doc.map (fun kv => kv.2.length) ∧
    (∀ (j : Nat) (d : TaggedDocEntity), (flatDoc doc)[j]? = some d →
      ∃ e : PEntity, (flatEnts L'')[j]? = some e ∧ e.sid = j ∧ e.obj.data = d.data ∧
        List.Forall₂ (fun t r =>
          decodeRef (lookup_entity (freshLayers 0 doc) (referenced_tags doc)) t = some r)
          d.refs e.obj.refs) := by
  have hf : List.Forall₂ (fun kv kv' =>
      (Option.map (fun es => (kv.1, es)) (optionMapAll (fun (p : SlotId × TaggedDocEntity) =>
        (optionMapAll (decodeRef (lookup_entity (freshLayers 0 doc) (referenced_tags doc)))
          p.2.refs).map
          (fun rs => PEntity.mk p.1 ⟨p.2.data, rs⟩)) kv.2)) = some kv')
      (freshLayers 0 doc) L'' := by
    apply optionMapAll_forall₂
    exact h
  have hlayer : List.Forall₂ (fun kv kv' => kv'.1 = kv.1 ∧
      List.Forall₂ (fun (p : SlotId × TaggedDocEntity) (e : PEntity) =>
        e.sid = p.1 ∧ e.obj.data = p.2.data ∧
        List.Forall₂ (fun t r =>
          decodeRef (lookup_entity (freshLayers 0 doc) (referenced_tags doc)) t = some r)
          p.2.refs e.obj.refs) kv.2 kv'.2)
      (freshLayers 0 doc) L'' := by
    refine hf.imp ?_
    intro kv kv' hkv
    cases hma : optionMapAll (fun (p : SlotId × TaggedDocEntity) =>
        (optionMapAll (decodeRef (lookup_entity (freshLayers 0 doc) (referenced_tags doc)))
          p.2.refs).map
          (fun rs => PEntity.mk p.1 ⟨p.2.data, rs⟩)) kv.2 with
    | none => rw [hma] at hkv; cases hkv
    | some es =>
      rw [hma] at hkv
      simp only [Option.map_some', Option.some.injEq] at hkv
      subst hkv
      refine ⟨rfl, ?_⟩
      have hent := optionMapAll_forall₂ _ _ _ hma
      refine hent.imp ?_
      intro p e hpe
      cases hrs : optionMapAll (decodeRef
          (lookup_entity (freshLayers 0 doc) (referenced_tags doc))) p.2.refs with
      | none => rw [hrs] at hpe; cases hpe
      | some rs =>
        rw [hrs] at hpe
        simp only [Option.map_some', Option.some.injEq] at hpe
        subst hpe
        exact ⟨rfl, rfl, optionMapAll_forall₂ _ _ _ hrs⟩
  refine ⟨?_, ?_, ?_⟩
  · have hkeys : L''.map (·.1) = (freshLayers 0 doc).map (·.1) :=
      forall₂_map_eq (hlayer.imp (fun _ _ hkv => hkv.1))
    rw [hkeys, freshLayers_keys]
  · have hlens : L''.map (fun kv => kv.2.length)
        = (freshLayers 0 doc).map (fun kv => kv.2.length) :=
      forall₂_map_eq (hlayer.imp (fun _ _ hkv => (List.Forall₂.length_eq hkv.2).symm))
    rw [hlens, freshLayers_lengths]
  · intro j d hd
    have hflat : List.Forall₂ (fun (p : SlotId × TaggedDocEntity) (e : PEntity) =>
        e.sid = p.1 ∧ e.obj.data = p.2.data ∧
        List.Forall₂ (fun t r =>
          decodeRef (lookup_entity (freshLayers 0 doc) (referenced_tags doc)) t = some r)
          p.2.refs e.obj.refs)
        ((freshLayers 0 doc).flatMap (·.2)) (flatEnts L'') := by
      apply forall₂_flatMap'
      exact hlayer.imp (fun _ _ hkv => hkv.2)
    have hfj : ((freshLayers 0 doc).flatMap (·.2))[j]? = some (j, d) := by
      rw [freshLayers_flat, freshSlots_getElem, hd]
      simp
    obtain ⟨e, he, hrel⟩ := forall₂_getElem hflat j (j, d) hfj
    exact ⟨e, he, hrel.1, hrel.2.1, hrel.2.2⟩

/-! ## Claim theorems for the save/load codec -/

/-- Claim C8 — deterministic dense tag assignment: every save succeeds and
assigns tags in one traversal in layer iteration order then slot sequence
order: the record of the `j`-th slot of the traversal carries tag `j`, the
document's tag sequence is exactly `0, 1, …, n-1`, and serialization is a
function of the registry alone, so two saves of an unmodified registry emit
the same document and hence byte-identical tag assignments. -/
theorem C8_dense_tags (L : PLayers) :
    ∃ doc, serialize_layers L = some doc ∧
      (flatDoc doc).map (·.tag) = List.range (flatEnts L).length ∧
      (∀ (j : Nat) (e : PEntity), (flatEnts L)[j]? = some e →
        (flatDoc doc)[j]? = some
          (TaggedDocEntity.mk e.obj.data j (e.obj.refs.map (encodeRefT L)))) ∧
      (∀ doc₂, serialize_layers L = some doc₂ → doc₂ = doc) := by
  refine ⟨docOf L, serialize_eq_docOf L, docOf_tags L, ?_, ?_⟩
  · intro j e he
    rw [flatDoc_docOf_getElem, he, Option.map_some']
  · intro doc₂ h2
    rw [serialize_eq_docOf] at h2
    exact (Option.some.inj h2).symm

/-- Claim C7 — dangling reference preservation: in the document emitted for
any registry, a reference reported as `Despawned` is stored as
`Tag::Despawned`, and a `Some` reference whose weak pointer fails to
upgrade at save time is stored as `Tag::Despawned` as well (the save still
returns a document — no panic); on any successful load a stored
`Tag::Despawned` is handed back as `MaybePersistentRef::Despawned`, which
is distinct from `MaybePersistentRef::None`: the reference is never
resurrected to a live target and never a crash. -/
theorem C7_dangling (L : PLayers) (j i : Nat) (e : PEntity)
    (he : (flatEnts L)[j]? = some e) :
    (∃ doc, serialize_layers L = some doc ∧
      ∃ d, (flatDoc doc)[j]? = some d ∧ d.refs = e.obj.refs.map (encodeRefT L) ∧
        (e.obj.refs[i]? = some MaybePersistentRef.Despawned →
          d.refs[i]? = some Tag.Despawned) ∧
        (∀ sid, e.obj.refs[i]? = some (MaybePersistentRef.Some sid) →
          alive L sid = false → d.refs[i]? = some Tag.Despawned)) ∧
    (∀ (doc' : Doc) (L'' : PLayers), deserialize_layers doc' = some L'' →
      ∀ (j' i' : Nat) (d : TaggedDocEntity), (flatDoc doc')[j']? = some d →
        d.refs[i']? = some Tag.Despawned →
        ∃ e' : PEntity, (flatEnts L'')[j']? = some e' ∧
          e'.obj.refs[i']? = some MaybePersistentRef.Despawned) ∧
    MaybePersistentRef.Despawned ≠ MaybePersistentRef.None := by
  refine ⟨?_, ?_, by decide⟩
  · refine ⟨docOf L, serialize_eq_docOf L,
      TaggedDocEntity.mk e.obj.data j (e.obj.refs.map (encodeRefT L)), ?_, rfl, ?_, ?_⟩
    · rw [flatDoc_docOf_getElem, he, Option.map_some']
    · intro hri
      rw [List.getElem?_map, hri, Option.map_some']
      rfl
    · intro sid hri hdead
      rw [List.getElem?_map, hri, Option.map_some']
      have hn : posOf (slotIds L) sid = Option.none := by
        rw [posOf_eq_none]
        intro hmem
        rw [(alive_iff L sid).mpr hmem] at hdead
        cases hdead
      simp [encodeRefT, hn]
  · intro doc' L'' hds j' i' d hd hri
    obtain ⟨e', he', _, _, hrel⟩ := (deserialize_char doc' L'' hds).2.2 j' d hd
    obtain ⟨r, hr, hdec⟩ := forall₂_getElem hrel i' Tag.Despawned hri
    refine ⟨e', he', ?_⟩
    have : r = MaybePersistentRef.Despawned := by
      simp only [decodeRef, Option.some.injEq] at hdec
      exact hdec.symm
    rw [hr, this]

/-- Claim C3, code evaluation at the failing input: a well-formed save
document whose `refs` list holds `Tag::Some 5` while no record of the
document carries tag `5` does not produce an `Err` return value —
`deserialize_layers` hits the `lookup_entity.get(u).unwrap()` of
core.rs 532 and `GameState::load` ends in a process panic instead of
returning the structured error the specification promises. -/
theorem C3_bogus_tag_panics :
    GameState.load
      (GameState.mk [0] ⟨[(0, [])]⟩ [(0, [])] 0 0)
      (Except.ok [(0, [TaggedDocEntity.mk 7 0 [Tag.Some 5]])])
      = (GameState.mk [0] ⟨[(0, [])]⟩ [(0, [])] 0 0, LoadOutcome.panicked)
    ∧ deserialize_layers [(0, [TaggedDocEntity.mk 7 0 [Tag.Some 5]])] = Option.none := by
  constructor
  · rfl
  · rfl

/-- Claim C2 — load atomicity on layer mismatch: when a loaded document
deserializes to layers whose layer-name set differs from the live
registry's, `GameState::load` returns the structured mismatch error and the
game state — in particular every persistent layer — is returned exactly
unchanged: validation in `replace` precedes the swap, so no partial apply
is possible. -/
theorem C2_load_atomic (g : GameState) (doc : Doc) (incoming : PLayers)
    (hds : deserialize_layers doc = some incoming)
    (hset : ∃ k : LayerName, ¬(k ∈ incoming.map (·.1) ↔
      k ∈ g.persistent_state.persistent_layers.map (·.1))) :
    GameState.load g (Except.ok doc)
      = (g, LoadOutcome.err "loaded save file does not contain correct render layers") := by
  apply load_mismatch hds
  intro heq
  obtain ⟨k, hk⟩ := hset
  rw [heq] at hk
  exact hk Iff.rfl

/-- Claim C10 — load replaces only the persistent layers: whenever
`GameState::load` returns `Ok`, the resulting game state agrees with the
input on the volatile layers, the layer-name list and the sdl members
(volatile entities survive a load unless cleared separately); only
`persistent_state` is swapped, and even then its layer-name sequence is
preserved. -/
theorem C10_load_frames_volatile (g g' : GameState) (fr : Except String Doc)
    (h : GameState.load g fr = (g', LoadOutcome.ok)) :
    g'.volatile_layers = g.volatile_layers ∧
    g'.layer_names = g.layer_names ∧
    g'.event_pump = g.event_pump ∧
    g'.canvas = g.canvas ∧
    g'.persistent_state.persistent_layers.map (·.1)
      = g.persistent_state.persistent_layers.map (·.1) := by
  cases fr with
  | error e =>
    have hred : GameState.load g (Except.error e) = (g, LoadOutcome.err e) := rfl
    rw [hred] at h
    simp at h
  | ok doc =>
    cases hds : deserialize_layers doc with
    | none =>
      have hred : GameState.load g (Except.ok doc) = (g, LoadOutcome.panicked) := by
        simp only [GameState.load, hds]
      rw [hred] at h
      simp at h
    | some incoming =>
      by_cases hkeq : incoming.map (·.1)
          = g.persistent_state.persistent_layers.map (·.1)
      · have hrep : replace incoming g.persistent_state
            = (PersistentState.mk (g.persistent_state.persistent_layers.map
                (fun kv => (kv.1,
                  match incoming.find? (fun kv' => kv'.1 == kv.1) with
                  | some l => l.2
                  | Option.none => []))), Option.none) := by
          unfold replace
          rw [if_pos hkeq]
        have hred : GameState.load g (Except.ok doc)
            = ({ g with persistent_state :=
                PersistentState.mk (g.persistent_state.persistent_layers.map
                  (fun kv => (kv.1,
                    match incoming.find? (fun kv' => kv'.1 == kv.1) with
                    | some l => l.2
                    | Option.none => []))) }, LoadOutcome.ok) := by
          simp only [GameState.load, hds, hrep]
        rw [hred, Prod.mk.injEq] at h
        obtain ⟨hg, -⟩ := h
        rw [← hg]
        refine ⟨rfl, rfl, rfl, rfl, ?_⟩
        show (g.persistent_state.persistent_layers.map
            (fun kv => (kv.1,
              match incoming.find? (fun kv' => kv'.1 == kv.1) with
              | some l => l.2
              | Option.none => []))).map (·.1)
          = g.persistent_state.persistent_layers.map (·.1)
        rw [List.map_map]
        exact List.map_congr_left (fun kv _ => rfl)
      · have hred : GameState.load g (Except.ok doc)
            = (g, LoadOutcome.err
                "loaded save file does not contain correct render layers") := by
          simp only [GameState.load, hds, replace_mismatch hkeq]
        rw [hred] at h
        simp at h

/-- Claim C1 — round-trip identity: saving a registry and loading the
resulting document into a registry of the identical layer-name sequence
succeeds and reproduces the layer names, the per-layer object counts, and
the resolved reference-graph topology positionally: the entity at traversal
position `j` is reborn in fresh slot `j` with its payload intact,
`MaybePersistentRef::None` loads back as `None`, `Despawned` as
`Despawned`, and a `Some` reference to the entity that held traversal
position `p` loads back as a reference to the new entity at that same
position `p` — which covers self-references (`p` equal to the referrer's
own position) and reference cycles of any length. -/
theorem C1_round_trip (g g' : GameState)
    (hids : (slotIds g.persistent_state.persistent_layers).Nodup)
    (hkeys : g'.persistent_state.persistent_layers.map (·.1)
      = g.persistent_state.persistent_layers.map (·.1))
    (hknd : (g.persistent_state.persistent_layers.map (·.1)).Nodup) :
    ∃ doc, GameState.save g = some doc ∧
      ∃ L', deserialize_layers doc = some L' ∧
        GameState.load g' (Except.ok doc)
          = ({ g' with persistent_state := ⟨L'⟩ }, LoadOutcome.ok) ∧
        L'.map (·.1) = g.persistent_state.persistent_layers.map (·.1) ∧
        L'.map (fun kv => kv.2.length)
          = g.persistent_state.persistent_layers.map (fun kv => kv.2.length) ∧
        (∀ (j : Nat) (e : PEntity),
          (flatEnts g.persistent_state.persistent_layers)[j]? = some e →
          (flatEnts L')[j]? = some (PEntity.mk j
            ⟨e.obj.data,
             e.obj.refs.map (refImage g.persistent_state.persistent_layers)⟩)) ∧
        (∀ (p : Nat) (eT : PEntity),
          (flatEnts g.persistent_state.persistent_layers)[p]? = some eT →
          refImage g.persistent_state.persistent_layers
            (MaybePersistentRef.Some eT.sid) = MaybePersistentRef.Some p) ∧
        refImage g.persistent_state.persistent_layers MaybePersistentRef.None
          = MaybePersistentRef.None ∧
        refImage g.persistent_state.persistent_layers MaybePersistentRef.Despawned
          = MaybePersistentRef.Despawned := by
  refine ⟨docOf g.persistent_state.persistent_layers, serialize_eq_docOf _,
    loadImage g.persistent_state.persistent_layers, deserialize_eq_loadImage _,
    ?_, ?_, loadImage_lengths _, ?_, ?_, rfl, rfl⟩
  · exact load_ok (deserialize_eq_loadImage _)
      ((loadImage_keys _).trans hkeys.symm)
      (by rw [loadImage_keys]; exact hknd)
  · exact loadImage_keys _
  · intro j e he
    rw [flatEnts_loadImage_getElem, he, Option.map_some']
  · intro p eT hp
    have hsid : (slotIds g.persistent_state.persistent_layers)[p]? = some eT.sid := by
      unfold slotIds
      rw [List.getElem?_map, hp, Option.map_some']
    have hpos := posOf_of_getElem _ hids _ _ hsid
    simp [refImage, hpos]

/-! ## Witnesses for the codec claims -/

/-- Witness for C7 at slot 30 of the example registry, whose third
reference points at the despawned slot 99. -/
theorem C7_dangling_witness :
    ((flatEnts exampleLayers)[2]? = some (PEntity.mk 30 ⟨300,
      [MaybePersistentRef.None, MaybePersistentRef.Despawned,
       MaybePersistentRef.Some 99]⟩)) ∧
    ((∃ doc, serialize_layers exampleLayers = some doc ∧
      ∃ d, (flatDoc doc)[2]? = some d ∧
        d.refs = (PEntity.mk 30 ⟨300,
          [MaybePersistentRef.None, MaybePersistentRef.Despawned,
           MaybePersistentRef.Some 99]⟩).obj.refs.map (encodeRefT exampleLayers) ∧
        ((PEntity.mk 30 ⟨300,
          [MaybePersistentRef.None, MaybePersistentRef.Despawned,
           MaybePersistentRef.Some 99]⟩).obj.refs[2]?
            = some MaybePersistentRef.Despawned →
          d.refs[2]? = some Tag.Despawned) ∧
        (∀ sid, (PEntity.mk 30 ⟨300,
          [MaybePersistentRef.None, MaybePersistentRef.Despawned,
           MaybePersistentRef.Some 99]⟩).obj.refs[2]?
            = some (MaybePersistentRef.Some sid) →
          alive exampleLayers sid = false → d.refs[2]? = some Tag.Despawned)) ∧
    (∀ (doc' : Doc) (L'' : PLayers), deserialize_layers doc' = some L'' →
      ∀ (j' i' : Nat) (d : TaggedDocEntity), (flatDoc doc')[j']? = some d →
        d.refs[i']? = some Tag.Despawned →
        ∃ e' : PEntity, (flatEnts L'')[j']? = some e' ∧
          e'.obj.refs[i']? = some MaybePersistentRef.Despawned) ∧
    MaybePersistentRef.Despawned ≠ MaybePersistentRef.None) :=
  ⟨by decide, C7_dangling exampleLayers 2 2 _ (by decide)⟩

/-- Witness for C2: loading a document with layer key 2 into the example
registry (keys 0 and 1) is rejected with the registry unchanged. -/
theorem C2_load_atomic_witness :
    deserialize_layers [(2, [])] = some [(2, [])] ∧
    (∃ k : LayerName, ¬(k ∈ ([(2, ([] : List PEntity))] : PLayers).map (·.1) ↔
      k ∈ exampleGame.persistent_state.persistent_layers.map (·.1))) ∧
    GameState.load exampleGame (Except.ok [(2, [])])
      = (exampleGame,
         LoadOutcome.err "loaded save file does not contain correct render layers") :=
  ⟨by decide, ⟨2, by decide⟩,
    C2_load_atomic exampleGame [(2, [])] [(2, [])] (by decide) ⟨2, by decide⟩⟩

/-- Witness for C10: a successful load of an empty two-layer document into
the example game leaves every non-persistent field unchanged. -/
theorem C10_load_frames_volatile_witness :
    (GameState.load exampleGame (Except.ok [(0, []), (1, [])])
      = (GameState.mk [0, 1] ⟨[(0, []), (1, [])]⟩ [(0, []), (1, [])] 0 0,
         LoadOutcome.ok)) ∧
    ((GameState.mk [0, 1] (PersistentState.mk [(0, []), (1, [])])
        [(0, []), (1, [])] 0 0).volatile_layers = exampleGame.volatile_layers ∧
     (GameState.mk [0, 1] (PersistentState.mk [(0, []), (1, [])])
        [(0, []), (1, [])] 0 0).layer_names = exampleGame.layer_names ∧
     (GameState.mk [0, 1] (PersistentState.mk [(0, []), (1, [])])
        [(0, []), (1, [])] 0 0).event_pump = exampleGame.event_pump ∧
     (GameState.mk [0, 1] (PersistentState.mk [(0, []), (1, [])])
        [(0, []), (1, [])] 0 0).canvas = exampleGame.canvas ∧
     (GameState.mk [0, 1] (PersistentState.mk [(0, []), (1, [])])
        [(0, []), (1, [])] 0 0).persistent_state.persistent_layers.map (·.1)
       = exampleGame.persistent_state.persistent_layers.map (·.1)) :=
  ⟨by decide,
   C10_load_frames_volatile exampleGame
     (GameState.mk [0, 1] (PersistentState.mk [(0, []), (1, [])])
       [(0, []), (1, [])] 0 0)
     (Except.ok [(0, []), (1, [])]) (by decide)⟩

/-- Witness for C1 at the example registry: the round trip reproduces the
two-cycle, the self-reference, and the unset and dangling references. -/
theorem C1_round_trip_witness :
    ((slotIds exampleGame.persistent_state.persistent_layers).Nodup ∧
     (exampleGame.persistent_state.persistent_layers.map (·.1)).Nodup) ∧
    (∃ doc, GameState.save exampleGame = some doc ∧
      ∃ L', deserialize_layers doc = some L' ∧
        GameState.load exampleGame (Except.ok doc)
          = ({ exampleGame with persistent_state := ⟨L'⟩ }, LoadOutcome.ok) ∧
        L'.map (·.1) = exampleGame.persistent_state.persistent_layers.map (·.1) ∧
        L'.map (fun kv => kv.2.length)
          = exampleGame.persistent_state.persistent_layers.map
              (fun kv => kv.2.length) ∧
        (∀ (j : Nat) (e : PEntity),
          (flatEnts exampleGame.persistent_state.persistent_layers)[j]? = some e →
          (flatEnts L')[j]? = some (PEntity.mk j
            ⟨e.obj.data,
             e.obj.refs.map (refImage exampleGame.persistent_state.persistent_layers)⟩)) ∧
        (∀ (p : Nat) (eT : PEntity),
          (flatEnts exampleGame.persistent_state.persistent_layers)[p]? = some eT →
          refImage exampleGame.persistent_state.persistent_layers
            (MaybePersistentRef.Some eT.sid) = MaybePersistentRef.Some p) ∧
        refImage exampleGame.persistent_state.persistent_layers
          MaybePersistentRef.None = MaybePersistentRef.None ∧
        refImage exampleGame.persistent_state.persistent_layers
          MaybePersistentRef.Despawned = MaybePersistentRef.Despawned) :=
  ⟨⟨by decide, by decide⟩,
   C1_round_trip exampleGame exampleGame (by decide) rfl (by decide)⟩

/-! ## The take/restore discipline -/

theorem find?_map_setCell_self {α : Type} (cells : List (SlotId × Option α))
    (sid : SlotId) (c c₀ : Option α)
    (hup : (cells.find? (fun kv => kv.1 == sid)).map (·.2) = some c₀) :
    ((cells.map (fun kv => if kv.1 == sid then (kv.1, c) else kv)).find?
      (fun kv => kv.1 == sid)).map (·.2) = some c := by
  induction cells with
  | nil => simp at hup
  | cons kv rest ih =>
    by_cases hk : kv.1 == sid
    · simp only [List.map_cons, if_pos hk]
      rw [List.find?_cons_of_pos _ (by simpa using hk)]
      rfl
    · rw [List.find?_cons_of_neg _ (by simpa using hk)] at hup
      simp only [List.map_cons, if_neg hk]
      rw [List.find?_cons_of_neg _ (by simpa using hk)]
      exact ih hup

theorem find?_map_setCell_other {α : Type} (cells : List (SlotId × Option α))
    (sid sid' : SlotId) (c : Option α) (hne : sid' ≠ sid) :
    ((cells.map (fun kv => if kv.1 == sid then (kv.1, c) else kv)).find?
      (fun kv => kv.1 == sid')).map (·.2)
    = (cells.find? (fun kv => kv.1 == sid')).map (·.2) := by
  induction cells with
  | nil => rfl
  | cons kv rest ih =>
    by_cases hk : kv.1 == sid
    · have hk' : kv.1 = sid := by simpa using hk
      have hne2 : ¬(kv.1 == sid') = true := by simp [hk', Ne.symm hne]
      simp only [List.map_cons, if_pos hk]
      rw [List.find?_cons_of_neg _ (by simpa [hk'] using Ne.symm hne),
        List.find?_cons_of_neg _ (by simpa using hne2)]
      exact ih
    · simp only [List.map_cons, if_neg hk]
      by_cases hk2 : kv.1 == sid'
      · rw [List.find?_cons_of_pos _ (by simpa using hk2),
          List.find?_cons_of_pos _ (by simpa using hk2)]
      · rw [List.find?_cons_of_neg _ (by simpa using hk2),
          List.find?_cons_of_neg _ (by simpa using hk2)]
        exact ih

theorem upgrade_setCell_self {α : Type} (h : Heap α) (sid : SlotId)
    (c c₀ : Option α) (hup : h.upgrade sid = some c₀) :
    (h.setCell sid c).upgrade sid = some c :=
  find?_map_setCell_self h.cells sid c c₀ hup

theorem upgrade_setCell_other {α : Type} (h : Heap α) (sid sid' : SlotId)
    (c : Option α) (hne : sid' ≠ sid) :
    (h.setCell sid c).upgrade sid' = h.upgrade sid' :=
  find?_map_setCell_other h.cells sid sid' c hne

theorem withTaken_eq {α ρ : Type} (h : Heap α) (sid : SlotId) (e : α)
    (body : α → Heap α → α × ρ) (hup : h.upgrade sid = some (some e)) :
    withTaken h sid body
      = ((h.setCell sid Option.none).setCell sid
           (some (body e (h.setCell sid Option.none)).1),
         some (body e (h.setCell sid Option.none)).2) := by
  simp only [withTaken, hup]

theorem setCell_restore_occupied {α : Type} (h : Heap α) (sid : SlotId) (x : α)
    (hocc : h.occupied) :
    ((h.setCell sid Option.none).setCell sid (some x)).occupied := by
  intro kv hkv
  unfold Heap.setCell at hkv
  simp only [List.map_map, List.mem_map] at hkv
  obtain ⟨kv₀, hkv₀, hkve⟩ := hkv
  by_cases hk : kv₀.1 == sid
  · simp only [Function.comp_apply, if_pos hk] at hkve
    rw [← hkve]
    rfl
  · simp only [Function.comp_apply, if_neg hk] at hkve
    rw [← hkve]
    exact hocc kv₀ hkv₀

theorem withTaken_restoresSlot {α ρ : Type} (h : Heap α) (sid : SlotId) (e : α)
    (body : α → Heap α → α × ρ) (hup : h.upgrade sid = some (some e)) :
    restoresSlot h (withTaken h sid body).1 sid := by
  rw [withTaken_eq h sid e body hup]
  refine ⟨⟨(body e (h.setCell sid Option.none)).1, ?_⟩, ?_, ?_⟩
  · exact upgrade_setCell_self _ _ _ _
      (upgrade_setCell_self _ _ _ _ hup)
  · intro sid' hne
    rw [upgrade_setCell_other _ _ _ _ hne, upgrade_setCell_other _ _ _ _ hne]
  · intro hocc
    exact setCell_restore_occupied h sid _ hocc

/-- Claim C4 — taken resolution without panic: `PersistentRef::get` on a
slot that still exists but whose object is currently taken out returns
`Taken` — never `Despawned` — and leaves the heap exactly as it was (the
function is total: it returns at once, with no blocking, spinning, or
second borrow); in particular, inside an object's own `generate_rate` the
object's cell is empty, so resolving a weak reference to its own slot from
there yields `Taken`, and `generate_rate` itself is exactly the
take-call-restore sequence on that one cell. -/
theorem C4_taken_resolution {α : Type} (h : Heap α) (sid : SlotId)
    (htaken : h.upgrade sid = some Option.none) :
    (PersistentRef.get h sid = (PersistentRefPromotionResult.Taken, h) ∧
     (PersistentRef.get h sid).1 ≠ PersistentRefPromotionResult.Despawned) ∧
    (∀ (e : α) (f : α → Heap α → α) (h₀ : Heap α),
      h₀.upgrade sid = some (some e) →
      PersistentRef.get (h₀.setCell sid Option.none) sid
        = (PersistentRefPromotionResult.Taken, h₀.setCell sid Option.none) ∧
      PersistentEntity.generate_rate h₀ sid f
        = (h₀.setCell sid Option.none).setCell sid
            (some (f e (h₀.setCell sid Option.none)))) := by
  constructor
  · have hg : PersistentRef.get h sid = (PersistentRefPromotionResult.Taken, h) := by
      simp only [PersistentRef.get, htaken]
    exact ⟨hg, by rw [hg]; simp⟩
  · intro e f h₀ hup
    have ht : (h₀.setCell sid Option.none).upgrade sid = some Option.none :=
      upgrade_setCell_self _ _ _ _ hup
    constructor
    · simp only [PersistentRef.get, ht]
    · unfold PersistentEntity.generate_rate
      rw [withTaken_eq h₀ sid e _ hup]

/-- Witness for C4 on a two-slot heap: slot 1 exists with its object taken
out, slot 2 occupied. -/
theorem C4_taken_resolution_witness :
    ((Heap.mk [(1, Option.none), (2, some 6)] : Heap Nat).upgrade 1
      = some Option.none) ∧
    ((PersistentRef.get (Heap.mk [(1, Option.none), (2, some 6)] : Heap Nat) 1
        = (PersistentRefPromotionResult.Taken,
           Heap.mk [(1, Option.none), (2, some 6)]) ∧
      (PersistentRef.get (Heap.mk [(1, Option.none), (2, some 6)] : Heap Nat) 1).1
        ≠ PersistentRefPromotionResult.Despawned) ∧
     (∀ (e : Nat) (f : Nat → Heap Nat → Nat) (h₀ : Heap Nat),
       h₀.upgrade 1 = some (some e) →
       PersistentRef.get (h₀.setCell 1 Option.none) 1
         = (PersistentRefPromotionResult.Taken, h₀.setCell 1 Option.none) ∧
       PersistentEntity.generate_rate h₀ 1 f
         = (h₀.setCell 1 Option.none).setCell 1
             (some (f e (h₀.setCell 1 Option.none))))) :=
  ⟨by decide,
   C4_taken_resolution (Heap.mk [(1, Option.none), (2, some 6)]) 1 (by decide)⟩

/-- Claim C9 — take/restore occupancy: each of the operations that take an
object out of its cell — `generate_rate`, `apply_rate`, `apply_spawns`,
`render`, `save_entity_references`, `load_entity_references` and the
`TaggedPersistent` serializer, for both entity kinds — restores exactly
that slot before returning: afterwards the slot is occupied, every other
slot is untouched, and a fully occupied heap (every slot holding exactly
one object) is fully occupied again, so an empty cell is never observable
at a steady-state point outside the operation itself. -/
theorem C9_take_restore (α : Type) (h : Heap α) (sid : SlotId) (e : α)
    (hup : h.upgrade sid = some (some e)) :
    (∀ f : α → Heap α → α,
      restoresSlot h (PersistentEntity.generate_rate h sid f) sid) ∧
    (∀ f : α → α, restoresSlot h (PersistentEntity.apply_rate h sid f) sid) ∧
    (∀ (ρ : Type) (f : α → ρ),
      restoresSlot h (PersistentEntity.apply_spawns h sid f).1 sid) ∧
    (∀ (κ : Type) (f : α → κ),
      restoresSlot h (PersistentEntity.render h sid f).1 sid) ∧
    (∀ f : α → List MaybePersistentRef,
      restoresSlot h (PersistentEntity.save_entity_references h sid f).1 sid) ∧
    (∀ (v : List MaybePersistentRef) (f : α → List MaybePersistentRef → α),
      restoresSlot h (PersistentEntity.load_entity_references h sid v f) sid) ∧
    restoresSlot h (TaggedPersistent.serializeField h sid).1 sid ∧
    (∀ f : α → Heap α → α,
      restoresSlot h (VolatileEntity.generate_rate h sid f) sid) ∧
    (∀ f : α → α, restoresSlot h (VolatileEntity.apply_rate h sid f) sid) ∧
    (∀ (ρ : Type) (f : α → ρ),
      restoresSlot h (VolatileEntity.apply_spawns h sid f).1 sid) ∧
    (∀ (κ : Type) (f : α → κ),
      restoresSlot h (VolatileEntity.render h sid f).1 sid) := by
  refine ⟨?_, ?_, ?_, ?_, ?_, ?_, ?_, ?_, ?_, ?_, ?_⟩
  · intro f; exact withTaken_restoresSlot h sid e _ hup
  · intro f; exact withTaken_restoresSlot h sid e _ hup
  · intro ρ f; exact withTaken_restoresSlot h sid e _ hup
  · intro κ f; exact withTaken_restoresSlot h sid e _ hup
  · intro f; exact withTaken_restoresSlot h sid e _ hup
  · intro v f; exact withTaken_restoresSlot h sid e _ hup
  · exact withTaken_restoresSlot h sid e _ hup
  · intro f; exact withTaken_restoresSlot h sid e _ hup
  · intro f; exact withTaken_restoresSlot h sid e _ hup
  · intro ρ f; exact withTaken_restoresSlot h sid e _ hup
  · intro κ f; exact withTaken_restoresSlot h sid e _ hup

/-- Witness for C9 on a two-slot occupied heap (extracting the
`generate_rate` and serializer conjuncts at a concrete update function). -/
theorem C9_take_restore_witness :
    ((Heap.mk [(1, some 5), (2, some 6)] : Heap Nat).upgrade 1
      = some (some 5)) ∧
    restoresSlot (Heap.mk [(1, some 5), (2, some 6)] : Heap Nat)
      (PersistentEntity.generate_rate
        (Heap.mk [(1, some 5), (2, some 6)] : Heap Nat) 1 (fun a _ => a + 1)) 1 ∧
    restoresSlot (Heap.mk [(1, some 5), (2, some 6)] : Heap Nat)
      (TaggedPersistent.serializeField
        (Heap.mk [(1, some 5), (2, some 6)] : Heap Nat) 1).1 1 :=
  ⟨by decide,
   (C9_take_restore Nat (Heap.mk [(1, some 5), (2, some 6)]) 1 5 (by decide)).1
     (fun a _ => a + 1),
   (C9_take_restore Nat (Heap.mk [(1, some 5), (2, some 6)]) 1 5
     (by decide)).2.2.2.2.2.2.1⟩

/-! ## The frame model: generate-rate phase -/

theorem vmapEnts_append (l₁ l₂ : List Ent) :
    vmapEnts (l₁ ++ l₂) = vmapEnts l₁ ++ vmapEnts l₂ :=
  List.map_append _ _ _

theorem vmapLayers_append (l₁ l₂ : List SimLayer) :
    vmapLayers (l₁ ++ l₂) = vmapLayers l₁ ++ vmapLayers l₂ :=
  List.map_append _ _ _

theorem flatSids_eq_map (ls : List SimLayer) :
    flatSids ls = (ls.flatMap (·.2)).map (·.1) := by
  unfold flatSids
  rw [List.map_flatMap]

theorem flatSids_append (l₁ l₂ : List SimLayer) :
    flatSids (l₁ ++ l₂) = flatSids l₁ ++ flatSids l₂ := by
  unfold flatSids
  rw [List.flatMap_append]

theorem vmap_flat (ls : List SimLayer) :
    vmapEnts (ls.flatMap (·.2)) = (vmapLayers ls).flatMap (·.2) := by
  unfold vmapEnts vmapLayers
  rw [List.map_flatMap, List.flatMap_map]
  rfl

theorem flatSids_eq_vmap (ls : List SimLayer) :
    flatSids ls = ((vmapLayers ls).flatMap (·.2)).map (·.1) := by
  rw [flatSids_eq_map, ← vmap_flat]
  unfold vmapEnts
  rw [List.map_map]
  exact (List.map_congr_left (fun e _ => rfl)).symm

theorem sids_of_vmap {ls₁ ls₂ : List SimLayer}
    (h : vmapLayers ls₁ = vmapLayers ls₂) : flatSids ls₁ = flatSids ls₂ := by
  rw [flatSids_eq_vmap, flatSids_eq_vmap, h]

theorem genEnts_vmap (g : Nat → SimObj → Snap → Nat) (mkS : List Ent → Nat → Snap)
    (es : List Ent) : ∀ done : List Ent,
    vmapEnts (genEnts g mkS done es).1 = vmapEnts done ++ vmapEnts es := by
  induction es with
  | nil => intro done; simp [genEnts, vmapEnts]
  | cons e rest ih =>
    intro done
    simp only [genEnts]
    rw [ih, vmapEnts_append]
    simp [vmapEnts]

theorem genEnts_calls_sids (g : Nat → SimObj → Snap → Nat)
    (mkS : List Ent → Nat → Snap) (es : List Ent) : ∀ done : List Ent,
    (genEnts g mkS done es).2.map (·.1) = es.map (·.1) := by
  induction es with
  | nil => intro done; rfl
  | cons e rest ih =>
    intro done
    simp only [genEnts, List.map_cons]
    rw [ih]

theorem genEnts_calls_snap (g : Nat → SimObj → Snap → Nat)
    (mkS : List Ent → Nat → Snap) (es : List Ent) : ∀ (done : List Ent),
    ∀ c ∈ (genEnts g mkS done es).2, ∃ cs, c.2 = mkS cs c.1 ∧
      vmapEnts cs = vmapEnts (done ++ es) := by
  induction es with
  | nil => intro done c hc; simp [genEnts] at hc
  | cons e rest ih =>
    intro done c hc
    simp only [genEnts, List.mem_cons] at hc
    rcases hc with hc | hc
    · subst hc
      exact ⟨done ++ e :: rest, rfl, rfl⟩
    · obtain ⟨cs, h1, h2⟩ := ih _ c hc
      refine ⟨cs, h1, ?_⟩
      rw [h2, vmapEnts_append, vmapEnts_append]
      simp [vmapEnts]

theorem genLayersP_vmapL (b : SimBehavior) (vs : List SimLayer)
    (pls : List SimLayer) : ∀ pdone : List SimLayer,
    vmapLayers (genLayersP b vs pdone pls).1 = vmapLayers pdone ++ vmapLayers pls := by
  induction pls with
  | nil => intro pdone; simp [genLayersP, vmapLayers]
  | cons l rest ih =>
    intro pdone
    obtain ⟨name, es⟩ := l
    simp only [genLayersP]
    rw [ih, vmapLayers_append]
    have hg := genEnts_vmap b.pgen
      (fun cs cur => mkSnap (pdone ++ (name, cs) :: rest) vs cur) es []
    simp only [show vmapEnts ([] : List Ent) = [] from rfl, List.nil_append] at hg
    simp [vmapLayers, hg]

theorem genLayersP_calls_sids (b : SimBehavior) (vs : List SimLayer)
    (pls : List SimLayer) : ∀ pdone : List SimLayer,
    (genLayersP b vs pdone pls).2.map (·.1) = flatSids pls := by
  induction pls with
  | nil => intro pdone; rfl
  | cons l rest ih =>
    intro pdone
    obtain ⟨name, es⟩ := l
    simp only [genLayersP, List.map_append]
    rw [ih, genEnts_calls_sids]
    simp [flatSids]

theorem genLayersP_calls_snap (b : SimBehavior) (vs : List SimLayer)
    (pls : List SimLayer) : ∀ (pdone : List SimLayer),
    ∀ c ∈ (genLayersP b vs pdone pls).2, ∃ ps', c.2 = mkSnap ps' vs c.1 ∧
      vmapLayers ps' = vmapLayers (pdone ++ pls) := by
  induction pls with
  | nil => intro pdone c hc; simp [genLayersP] at hc
  | cons l rest ih =>
    intro pdone c hc
    obtain ⟨name, es⟩ := l
    simp only [genLayersP, List.mem_append] at hc
    rcases hc with hc | hc
    · obtain ⟨cs, h1, h2⟩ := genEnts_calls_snap _ _ es [] c hc
      refine ⟨pdone ++ (name, cs) :: rest, h1, ?_⟩
      simp only [List.nil_append] at h2
      rw [vmapLayers_append, vmapLayers_append]
      simp [vmapLayers, h2]
    · obtain ⟨ps', h1, h2⟩ := ih _ c hc
      refine ⟨ps', h1, ?_⟩
      rw [h2]
      have hg := genEnts_vmap b.pgen
        (fun cs cur => mkSnap (pdone ++ (name, cs) :: rest) vs cur) es []
      simp only [show vmapEnts ([] : List Ent) = [] from rfl, List.nil_append] at hg
      rw [vmapLayers_append, vmapLayers_append]
      simp [vmapLayers, hg]

theorem genLayersV_vmapL (b : SimBehavior) (ps : List SimLayer)
    (vls : List SimLayer) : ∀ vdone : List SimLayer,
    vmapLayers (genLayersV b ps vdone vls).1 = vmapLayers vdone ++ vmapLayers vls := by
  induction vls with
  | nil => intro vdone; simp [genLayersV, vmapLayers]
  | cons l rest ih =>
    intro vdone
    obtain ⟨name, es⟩ := l
    simp only [genLayersV]
    rw [ih, vmapLayers_append]
    have hg := genEnts_vmap b.vgen
      (fun cs cur => mkSnap ps (vdone ++ (name, cs) :: rest) cur) es []
    simp only [show vmapEnts ([] : List Ent) = [] from rfl, List.nil_append] at hg
    simp [vmapLayers, hg]

theorem genLayersV_calls_sids (b : SimBehavior) (ps : List SimLayer)
    (vls : List SimLayer) : ∀ vdone : List SimLayer,
    (genLayersV b ps vdone vls).2.map (·.1) = flatSids vls := by
  induction vls with
  | nil => intro vdone; rfl
  | cons l rest ih =>
    intro vdone
    obtain ⟨name, es⟩ := l
    simp only [genLayersV, List.map_append]
    rw [ih, genEnts_calls_sids]
    simp [flatSids]

theorem genLayersV_calls_snap (b : SimBehavior) (ps : List SimLayer)
    (vls : List SimLayer) : ∀ (vdone : List SimLayer),
    ∀ c ∈ (genLayersV b ps vdone vls).2, ∃ vs', c.2 = mkSnap ps vs' c.1 ∧
      vmapLayers vs' = vmapLayers (vdone ++ vls) := by
  induction vls with
  | nil => intro vdone c hc; simp [genLayersV] at hc
  | cons l rest ih =>
    intro vdone c hc
    obtain ⟨name, es⟩ := l
    simp only [genLayersV, List.mem_append] at hc
    rcases hc with hc | hc
    · obtain ⟨cs, h1, h2⟩ := genEnts_calls_snap _ _ es [] c hc
      refine ⟨vdone ++ (name, cs) :: rest, h1, ?_⟩
      simp only [List.nil_append] at h2
      rw [vmapLayers_append, vmapLayers_append]
      simp [vmapLayers, h2]
    · obtain ⟨vs', h1, h2⟩ := ih _ c hc
      refine ⟨vs', h1, ?_⟩
      rw [h2]
      have hg := genEnts_vmap b.vgen
        (fun cs cur => mkSnap ps (vdone ++ (name, cs) :: rest) cur) es []
      simp only [show vmapEnts ([] : List Ent) = [] from rfl, List.nil_append] at hg
      rw [vmapLayers_append, vmapLayers_append]
      simp [vmapLayers, hg]

/-- Resolving any slot other than the taken one against a mid-phase
snapshot yields an occupied cell whose visible state is the start-of-frame
one. -/
theorem mkSnap_lookup (ps vs : List SimLayer) (cur bsid bval : Nat)
    (hne : bsid ≠ cur)
    (hmem : (bsid, bval) ∈ vmapEnts ((ps ++ vs).flatMap (·.2)))
    (hnd : (((ps ++ vs).flatMap (·.2)).map (·.1)).Nodup) :
    ∃ o : SimObj, (mkSnap ps vs cur).lookup bsid = some (some o) ∧ o.val = bval := by
  have hcells : ((mkSnap ps vs cur).players ++ (mkSnap ps vs cur).vlayers).flatMap (·.2)
      = ((ps ++ vs).flatMap (·.2)).map (snapCell cur) := by
    unfold mkSnap
    rw [← List.map_append, List.flatMap_map, List.map_flatMap]
  obtain ⟨j, hj⟩ := List.mem_iff_getElem?.mp hmem
  have hej : ∃ e : Ent, ((ps ++ vs).flatMap (·.2))[j]? = some e ∧
      e.1 = bsid ∧ e.2.val = bval := by
    unfold vmapEnts at hj
    rw [List.getElem?_map] at hj
    cases he : ((ps ++ vs).flatMap (·.2))[j]? with
    | none => rw [he] at hj; cases hj
    | some e =>
      rw [he] at hj
      simp only [Option.map_some', Option.some.injEq] at hj
      exact ⟨e, rfl, congrArg Prod.fst hj, congrArg Prod.snd hj⟩
  obtain ⟨e, he, hsid, hval⟩ := hej
  have hpos : posOf (((ps ++ vs).flatMap (·.2)).map (·.1)) bsid = some j := by
    apply posOf_of_getElem _ hnd
    rw [List.getElem?_map, he, Option.map_some', hsid]
  unfold Snap.lookup
  rw [hcells, find?_eq_posOf (fun c : Nat × Option SimObj => c.1)]
  have hsids : (((ps ++ vs).flatMap (·.2)).map (snapCell cur)).map
      (fun c : Nat × Option SimObj => c.1) = ((ps ++ vs).flatMap (·.2)).map (·.1) := by
    rw [List.map_map]
    exact List.map_congr_left (fun x _ => rfl)
  rw [hsids, hpos]
  refine ⟨e.2, ?_, hval⟩
  simp only [Option.some_bind]
  rw [List.getElem?_map, he]
  simp [snapCell, hsid, hne]

/-! ## The frame model: apply, despawn, insertion -/

theorem applyLayers_sids (f : Nat → SimObj → SimObj) (ls : List SimLayer) :
    flatSids (applyLayers f ls) = flatSids ls := by
  unfold applyLayers flatSids
  rw [List.flatMap_map]
  congr 1
  funext l
  rw [List.map_map]
  exact List.map_congr_left (fun e _ => rfl)

theorem applyLayers_names (f : Nat → SimObj → SimObj) (ls : List SimLayer) :
    (applyLayers f ls).map (·.1) = ls.map (·.1) := by
  unfold applyLayers
  rw [List.map_map]
  exact List.map_congr_left (fun l _ => rfl)

theorem despawnEnts_evs (alv : Nat → SimObj → Bool)
    (spP spV : Nat → SimObj → List (Nat × List Ent)) (es : List Ent) :
    (despawnEnts alv spP spV es).2.2.2 = (es.map (fun e => Ev.check e.1)).reverse := by
  induction es with
  | nil => rfl
  | cons e rest ih =>
    simp only [despawnEnts, ih, List.map_cons, List.reverse_cons]

theorem despawnLayers_evs (alv : Nat → SimObj → Bool)
    (spP spV : Nat → SimObj → List (Nat × List Ent)) (ls : List SimLayer) :
    (despawnLayers alv spP spV ls).2.2.2
      = ls.flatMap (fun l => (l.2.map (fun e => Ev.check e.1)).reverse) := by
  induction ls with
  | nil => rfl
  | cons l rest ih =>
    obtain ⟨name, es⟩ := l
    simp only [despawnLayers, despawnEnts_evs, ih, List.flatMap_cons]

theorem despawn_evs_mem (alv : Nat → SimObj → Bool)
    (spP spV : Nat → SimObj → List (Nat × List Ent)) (ls : List SimLayer) (ev : Ev)
    (h : ev ∈ (despawnLayers alv spP spV ls).2.2.2) :
    ∃ x ∈ flatSids ls, ev = Ev.check x := by
  rw [despawnLayers_evs, List.mem_flatMap] at h
  obtain ⟨l, hl, hev⟩ := h
  rw [List.mem_reverse, List.mem_map] at hev
  obtain ⟨e, he, rfl⟩ := hev
  refine ⟨e.1, ?_, rfl⟩
  unfold flatSids
  rw [List.mem_flatMap]
  exact ⟨l, hl, List.mem_map_of_mem _ he⟩

theorem despawn_evs_cover (alv : Nat → SimObj → Bool)
    (spP spV : Nat → SimObj → List (Nat × List Ent)) (ls : List SimLayer) (x : Nat)
    (h : x ∈ flatSids ls) : Ev.check x ∈ (despawnLayers alv spP spV ls).2.2.2 := by
  rw [despawnLayers_evs]
  unfold flatSids at h
  rw [List.mem_flatMap] at h ⊢
  obtain ⟨l, hl, hx⟩ := h
  rw [List.mem_map] at hx
  obtain ⟨e, he, rfl⟩ := hx
  refine ⟨l, hl, ?_⟩
  rw [List.mem_reverse]
  exact List.mem_map_of_mem _ he

theorem despawnLayers_names (alv : Nat → SimObj → Bool)
    (spP spV : Nat → SimObj → List (Nat × List Ent)) (ls : List SimLayer) :
    (despawnLayers alv spP spV ls).1.map (·.1) = ls.map (·.1) := by
  induction ls with
  | nil => rfl
  | cons l rest ih =>
    obtain ⟨name, es⟩ := l
    simp only [despawnLayers, List.map_cons, ih]

theorem despawnEnts_all_alive (alv : Nat → SimObj → Bool)
    (spP spV : Nat → SimObj → List (Nat × List Ent)) (es : List Ent)
    (h : ∀ e ∈ es, alv e.1 e.2 = true) : (despawnEnts alv spP spV es).1 = es := by
  induction es with
  | nil => rfl
  | cons e rest ih =>
    simp only [despawnEnts]
    rw [if_pos (h e (List.mem_cons_self e rest)),
      ih (fun e' he' => h e' (List.mem_cons_of_mem e he'))]

theorem despawnLayers_all_alive (alv : Nat → SimObj → Bool)
    (spP spV : Nat → SimObj → List (Nat × List Ent)) (ls : List SimLayer)
    (h : ∀ l ∈ ls, ∀ e ∈ l.2, alv e.1 e.2 = true) :
    (despawnLayers alv spP spV ls).1 = ls := by
  induction ls with
  | nil => rfl
  | cons l rest ih =>
    obtain ⟨name, es⟩ := l
    simp only [despawnLayers]
    rw [despawnEnts_all_alive _ _ _ _ (h (name, es) (List.mem_cons_self _ _)),
      ih (fun l' hl' => h l' (List.mem_cons_of_mem _ hl'))]

theorem insertSpawn_names (ls : List SimLayer) (sp : Nat × List Ent) :
    (insertSpawn ls sp).map (·.1) = ls.map (·.1) := by
  unfold insertSpawn
  rw [List.map_map]
  apply List.map_congr_left
  intro l _
  by_cases h : l.1 = sp.1 <;> simp [h]

theorem insertSpawns_names (sps : List (Nat × List Ent)) : ∀ ls : List SimLayer,
    (insertSpawns ls sps).map (·.1) = ls.map (·.1) := by
  induction sps with
  | nil => intro ls; rfl
  | cons sp rest ih =>
    intro ls
    show (insertSpawns (insertSpawn ls sp) rest).map (·.1) = _
    rw [ih, insertSpawn_names]

theorem mem_flatSids_insertSpawn (ls : List SimLayer) (sp : Nat × List Ent) (x : Nat)
    (h : x ∈ flatSids ls) : x ∈ flatSids (insertSpawn ls sp) := by
  unfold flatSids at h ⊢
  rw [List.mem_flatMap] at h ⊢
  obtain ⟨l, hl, hx⟩ := h
  refine ⟨if l.1 == sp.1 then (l.1, l.2 ++ sp.2) else l,
    List.mem_map_of_mem _ hl, ?_⟩
  by_cases hn : l.1 == sp.1
  · rw [if_pos hn]
    simp only [List.map_append, List.mem_append]
    exact Or.inl hx
  · rw [if_neg hn]
    exact hx

theorem insertSpawn_adds (ls : List SimLayer) (sp : Nat × List Ent) (e : Ent)
    (hsp : sp.1 ∈ ls.map (·.1)) (he : e ∈ sp.2) :
    e.1 ∈ flatSids (insertSpawn ls sp) := by
  rw [List.mem_map] at hsp
  obtain ⟨l, hl, hleq⟩ := hsp
  unfold flatSids insertSpawn
  rw [List.mem_flatMap]
  refine ⟨(l.1, l.2 ++ sp.2), ?_, ?_⟩
  · rw [List.mem_map]
    exact ⟨l, hl, by rw [if_pos (by simp [hleq])]⟩
  · simp only [List.map_append, List.mem_append]
    exact Or.inr (List.mem_map_of_mem _ he)

theorem mem_flatSids_insertSpawns (sps : List (Nat × List Ent)) :
    ∀ (ls : List SimLayer) (x : Nat),
    x ∈ flatSids ls → x ∈ flatSids (insertSpawns ls sps) := by
  induction sps with
  | nil => intro ls x h; exact h
  | cons sp rest ih =>
    intro ls x h
    exact ih _ _ (mem_flatSids_insertSpawn ls sp x h)

theorem insertSpawns_adds (sps : List (Nat × List Ent)) :
    ∀ (ls : List SimLayer) (sp : Nat × List Ent) (e : Ent),
    sp ∈ sps → sp.1 ∈ ls.map (·.1) → e ∈ sp.2 →
    e.1 ∈ flatSids (insertSpawns ls sps) := by
  induction sps with
  | nil => intro ls sp e h _ _; cases h
  | cons sp' rest ih =>
    intro ls sp e hsp hname he
    rcases List.mem_cons.mp hsp with heq | hsp'
    · subst heq
      show e.1 ∈ flatSids (insertSpawns (insertSpawn ls sp) rest)
      exact mem_flatSids_insertSpawns rest _ _ (insertSpawn_adds ls sp e hname he)
    · show e.1 ∈ flatSids (insertSpawns (insertSpawn ls sp') rest)
      apply ih (insertSpawn ls sp') sp e hsp' _ he
      rw [insertSpawn_names]
      exact hname

theorem insertSpawn_not_mem (ls : List SimLayer) (sp : Nat × List Ent)
    (h : sp.1 ∉ ls.map (·.1)) : insertSpawn ls sp = ls := by
  induction ls with
  | nil => rfl
  | cons l rest ih =>
    simp only [List.map_cons, List.mem_cons] at h
    push_neg at h
    show (if l.1 == sp.1 then (l.1, l.2 ++ sp.2) else l) :: insertSpawn rest sp
      = l :: rest
    rw [if_neg (by simp; exact fun he => h.1 he.symm), ih h.2]

theorem insertSpawn_count (ls : List SimLayer) (sp : Nat × List Ent)
    (hnd : (ls.map (·.1)).Nodup) (hmem : sp.1 ∈ ls.map (·.1)) :
    (flatSids (insertSpawn ls sp)).length = (flatSids ls).length + sp.2.length := by
  induction ls with
  | nil => simp at hmem
  | cons l rest ih =>
    simp only [List.map_cons, List.nodup_cons, List.mem_cons] at hnd hmem
    show (flatSids ((if l.1 == sp.1 then (l.1, l.2 ++ sp.2) else l)
      :: insertSpawn rest sp)).length = _
    rcases hmem with hone | hmem
    · have hrest : insertSpawn rest sp = rest :=
        insertSpawn_not_mem rest sp (by rw [hone]; exact hnd.1)
      rw [if_pos (by simp [hone]), hrest]
      simp [flatSids]
      omega
    · have hne : ¬(l.1 == sp.1) = true := by
        simp only [beq_iff_eq]
        intro he
        exact hnd.1 (by rw [he]; exact hmem)
      rw [if_neg hne]
      have := ih hnd.2 hmem
      simp only [flatSids, List.flatMap_cons] at this ⊢
      simp only [List.length_append] at this ⊢
      omega

theorem insertSpawns_count (sps : List (Nat × List Ent)) : ∀ ls : List SimLayer,
    (ls.map (·.1)).Nodup → (∀ sp ∈ sps, sp.1 ∈ ls.map (·.1)) →
    (flatSids (insertSpawns ls sps)).length
      = (flatSids ls).length + (sps.map (fun sp => sp.2.length)).sum := by
  induction sps with
  | nil => intro ls _ _; simp [insertSpawns]
  | cons sp rest ih =>
    intro ls hnd hall
    show (flatSids (insertSpawns (insertSpawn ls sp) rest)).length = _
    rw [ih (insertSpawn ls sp) (by rw [insertSpawn_names]; exact hnd)
        (fun sp' h' => by
          rw [insertSpawn_names]
          exact hall sp' (List.mem_cons_of_mem _ h')),
      insertSpawn_count ls sp hnd (hall sp (List.mem_cons_self _ _))]
    simp only [List.map_cons, List.sum_cons]
    omega

/-! ## Definitional decomposition of one frame -/

theorem frame_spawnedP_eq (b : SimBehavior) (s : SimState) :
    (frame b s).spawnedP
      = (despawnLayers b.palive b.pspawnP b.pspawnV
          (applyLayers b.papply (genLayersP b s.vlayers [] s.players).1)).2.1 := rfl

theorem frame_spawnedV_eq (b : SimBehavior) (s : SimState) :
    (frame b s).spawnedV
      = (despawnLayers b.palive b.pspawnP b.pspawnV
          (applyLayers b.papply (genLayersP b s.vlayers [] s.players).1)).2.2.1
        ++ (despawnLayers b.valive (fun _ _ => []) b.vspawnV
          (applyLayers b.vapply
            (genLayersV b (genLayersP b s.vlayers [] s.players).1 [] s.vlayers).1)).2.2.1 := rfl

theorem frame_state_eq (b : SimBehavior) (s : SimState) :
    (frame b s).state
      = SimState.mk
          (insertSpawns (despawnLayers b.palive b.pspawnP b.pspawnV
            (applyLayers b.papply (genLayersP b s.vlayers [] s.players).1)).1
            (frame b s).spawnedP)
          (insertSpawns (despawnLayers b.valive (fun _ _ => []) b.vspawnV
            (applyLayers b.vapply
              (genLayersV b (genLayersP b s.vlayers [] s.players).1 [] s.vlayers).1)).1
            (frame b s).spawnedV) := rfl

theorem frame_calls_eq (b : SimBehavior) (s : SimState) :
    (frame b s).calls
      = (genLayersP b s.vlayers [] s.players).2
        ++ (genLayersV b (genLayersP b s.vlayers [] s.players).1 [] s.vlayers).2 := rfl

theorem frame_trace_eq (b : SimBehavior) (s : SimState) :
    (frame b s).trace
      = ((genLayersP b s.vlayers [] s.players).2
          ++ (genLayersV b (genLayersP b s.vlayers [] s.players).1 [] s.vlayers).2).map
            (fun c => Ev.gen c.1)
        ++ (flatSids (genLayersP b s.vlayers [] s.players).1
            ++ flatSids (genLayersV b (genLayersP b s.vlayers [] s.players).1
                [] s.vlayers).1).map Ev.app
        ++ ((despawnLayers b.palive b.pspawnP b.pspawnV
              (applyLayers b.papply (genLayersP b s.vlayers [] s.players).1)).2.2.2
            ++ (despawnLayers b.valive (fun _ _ => []) b.vspawnV
              (applyLayers b.vapply
                (genLayersV b (genLayersP b s.vlayers [] s.players).1
                  [] s.vlayers).1)).2.2.2)
        ++ (((frame b s).spawnedP ++ (frame b s).spawnedV).flatMap (·.2)).map
            (fun e => Ev.ins e.1) := rfl

theorem names_of_vmap {ls₁ ls₂ : List SimLayer} (h : vmapLayers ls₁ = vmapLayers ls₂) :
    ls₁.map (·.1) = ls₂.map (·.1) := by
  have h1 : ∀ ls : List SimLayer, ls.map (·.1) = (vmapLayers ls).map (·.1) := by
    intro ls
    unfold vmapLayers
    rw [List.map_map]
    exact (List.map_congr_left (fun l _ => rfl)).symm
  rw [h1, h1, h]

theorem genLayersP_start_vmapL (b : SimBehavior) (s : SimState) :
    vmapLayers (genLayersP b s.vlayers [] s.players).1 = vmapLayers s.players := by
  have h := genLayersP_vmapL b s.vlayers s.players []
  rw [show vmapLayers ([] : List SimLayer) = [] from rfl, List.nil_append] at h
  exact h

theorem genLayersV_start_vmapL (b : SimBehavior) (s : SimState) :
    vmapLayers (genLayersV b (genLayersP b s.vlayers [] s.players).1 [] s.vlayers).1
      = vmapLayers s.vlayers := by
  have h := genLayersV_vmapL b (genLayersP b s.vlayers [] s.players).1 s.vlayers []
  rw [show vmapLayers ([] : List SimLayer) = [] from rfl, List.nil_append] at h
  exact h

/-- The trace of one frame decomposes into four consecutive blocks: a
generate event for every live object (persistent layers first, then
volatile), then an apply event for every live object, then the despawn
checks, then the insertions — so one phase completes for every object
before the next phase begins for any object. -/
theorem frame_trace_char (b : SimBehavior) (s : SimState) :
    ∃ chk ins, (frame b s).trace
        = (allSids s).map Ev.gen ++ (allSids s).map Ev.app ++ chk ++ ins ∧
      (∀ ev ∈ chk, ∃ x ∈ allSids s, ev = Ev.check x) ∧
      (∀ x ∈ allSids s, Ev.check x ∈ chk) ∧
      (∀ ev ∈ ins, ∃ x : Nat, ev = Ev.ins x) := by
  have hs1 : flatSids (genLayersP b s.vlayers [] s.players).1 = flatSids s.players :=
    sids_of_vmap (genLayersP_start_vmapL b s)
  have hs2 : flatSids (genLayersV b (genLayersP b s.vlayers [] s.players).1
      [] s.vlayers).1 = flatSids s.vlayers :=
    sids_of_vmap (genLayersV_start_vmapL b s)
  have ha1 : flatSids (applyLayers b.papply (genLayersP b s.vlayers [] s.players).1)
      = flatSids s.players := by rw [applyLayers_sids, hs1]
  have ha2 : flatSids (applyLayers b.vapply
      (genLayersV b (genLayersP b s.vlayers [] s.players).1 [] s.vlayers).1)
      = flatSids s.vlayers := by rw [applyLayers_sids, hs2]
  have hgen : ((genLayersP b s.vlayers [] s.players).2
      ++ (genLayersV b (genLayersP b s.vlayers [] s.players).1 [] s.vlayers).2).map
        (fun c => Ev.gen c.1) = (allSids s).map Ev.gen := by
    have hids : ((genLayersP b s.vlayers [] s.players).2
        ++ (genLayersV b (genLayersP b s.vlayers [] s.players).1 [] s.vlayers).2).map
          (fun c : Nat × Snap => c.1) = allSids s := by
      rw [List.map_append, genLayersP_calls_sids, genLayersV_calls_sids]
      rfl
    rw [← hids, List.map_map]
    rfl
  have happ : (flatSids (genLayersP b s.vlayers [] s.players).1
      ++ flatSids (genLayersV b (genLayersP b s.vlayers [] s.players).1
        [] s.vlayers).1).map Ev.app = (allSids s).map Ev.app := by
    rw [hs1, hs2]
    rfl
  refine ⟨(despawnLayers b.palive b.pspawnP b.pspawnV
      (applyLayers b.papply (genLayersP b s.vlayers [] s.players).1)).2.2.2
    ++ (despawnLayers b.valive (fun _ _ => []) b.vspawnV
      (applyLayers b.vapply (genLayersV b (genLayersP b s.vlayers [] s.players).1
        [] s.vlayers).1)).2.2.2,
    (((frame b s).spawnedP ++ (frame b s).spawnedV).flatMap (·.2)).map
      (fun e => Ev.ins e.1), ?_, ?_, ?_, ?_⟩
  · rw [frame_trace_eq, hgen, happ]
  · intro ev hev
    rcases List.mem_append.mp hev with h | h
    · obtain ⟨x, hx, hxe⟩ := despawn_evs_mem _ _ _ _ _ h
      rw [ha1] at hx
      exact ⟨x, List.mem_append.mpr (Or.inl hx), hxe⟩
    · obtain ⟨x, hx, hxe⟩ := despawn_evs_mem _ _ _ _ _ h
      rw [ha2] at hx
      exact ⟨x, List.mem_append.mpr (Or.inr hx), hxe⟩
  · intro x hx
    rcases List.mem_append.mp
        (show x ∈ flatSids s.players ++ flatSids s.vlayers from hx) with h | h
    · exact List.mem_append.mpr (Or.inl (despawn_evs_cover _ _ _ _ _ (ha1 ▸ h)))
    · exact List.mem_append.mpr (Or.inr (despawn_evs_cover _ _ _ _ _ (ha2 ▸ h)))
  · intro ev hev
    obtain ⟨e, _, hxe⟩ := List.mem_map.mp hev
    exact ⟨e.1, hxe.symm⟩

/-- Claim C5 — global phase ordering: within one frame, the event trace is
exactly a generate event for every live object in every layer (persistent
and volatile), followed by an apply event for every object, followed by the
despawn checks for every object, followed by the insertions — so
`generate_rate` completes for all objects before any `apply_rate` and all
`apply_rate` calls complete before any despawn check; moreover every
snapshot handed to a `generate_rate` call resolves every other object B
(despawning this frame or not) to an occupied cell holding B's start-of-
frame visible state — A observes B's pre-despawn state, never a despawned
slot. -/
theorem C5_phase_ordering (b : SimBehavior) (s : SimState) (out : FrameOut)
    (hout : frame b s = out) (hnd : (allSids s).Nodup) :
    (∃ chk ins, out.trace
        = (allSids s).map Ev.gen ++ (allSids s).map Ev.app ++ chk ++ ins ∧
      (∀ ev ∈ chk, ∃ x ∈ allSids s, ev = Ev.check x) ∧
      (∀ x ∈ allSids s, Ev.check x ∈ chk) ∧
      (∀ ev ∈ ins, ∃ x : Nat, ev = Ev.ins x)) ∧
    (∀ a sn, (a, sn) ∈ out.calls →
      ∀ bsid bobj, (bsid, bobj) ∈ allEnts s → bsid ≠ a →
      ∃ o : SimObj, sn.lookup bsid = some (some o) ∧ o.val = bobj.val) := by
  subst hout
  refine ⟨frame_trace_char b s, ?_⟩
  intro a sn hmem bsid bobj hb hne
  rw [frame_calls_eq, List.mem_append] at hmem
  have hval : (bsid, bobj.val) ∈ vmapEnts ((s.players ++ s.vlayers).flatMap (·.2)) := by
    unfold allEnts at hb
    exact List.mem_map_of_mem (fun e : Ent => (e.1, e.2.val)) hb
  have hndflat : (((s.players ++ s.vlayers).flatMap (·.2)).map (·.1)).Nodup := by
    have hrw : allSids s = ((s.players ++ s.vlayers).flatMap (·.2)).map (·.1) := by
      unfold allSids
      rw [← flatSids_append, flatSids_eq_map]
    rw [← hrw]
    exact hnd
  rcases hmem with h | h
  · obtain ⟨ps', h1, h2⟩ := genLayersP_calls_snap b s.vlayers s.players [] (a, sn) h
    rw [List.nil_append] at h2
    have hvm : vmapLayers (ps' ++ s.vlayers) = vmapLayers (s.players ++ s.vlayers) := by
      rw [vmapLayers_append, vmapLayers_append, h2]
    have hvalflat : vmapEnts ((ps' ++ s.vlayers).flatMap (·.2))
        = vmapEnts ((s.players ++ s.vlayers).flatMap (·.2)) := by
      rw [vmap_flat, vmap_flat, hvm]
    have hsids : ((ps' ++ s.vlayers).flatMap (·.2)).map (·.1)
        = ((s.players ++ s.vlayers).flatMap (·.2)).map (·.1) := by
      rw [← flatSids_eq_map, ← flatSids_eq_map]
      exact sids_of_vmap hvm
    obtain ⟨o, ho, hov⟩ := mkSnap_lookup ps' s.vlayers a bsid bobj.val hne
      (hvalflat ▸ hval) (hsids ▸ hndflat)
    exact ⟨o, by rw [show sn = mkSnap ps' s.vlayers a from h1]; exact ho, hov⟩
  · obtain ⟨vs', h1, h2⟩ := genLayersV_calls_snap b
      (genLayersP b s.vlayers [] s.players).1 s.vlayers [] (a, sn) h
    rw [List.nil_append] at h2
    have hvm : vmapLayers ((genLayersP b s.vlayers [] s.players).1 ++ vs')
        = vmapLayers (s.players ++ s.vlayers) := by
      rw [vmapLayers_append, vmapLayers_append, h2, genLayersP_start_vmapL]
    have hvalflat : vmapEnts (((genLayersP b s.vlayers [] s.players).1 ++ vs').flatMap (·.2))
        = vmapEnts ((s.players ++ s.vlayers).flatMap (·.2)) := by
      rw [vmap_flat, vmap_flat, hvm]
    have hsids : (((genLayersP b s.vlayers [] s.players).1 ++ vs').flatMap (·.2)).map (·.1)
        = ((s.players ++ s.vlayers).flatMap (·.2)).map (·.1) := by
      rw [← flatSids_eq_map, ← flatSids_eq_map]
      exact sids_of_vmap hvm
    obtain ⟨o, ho, hov⟩ := mkSnap_lookup (genLayersP b s.vlayers [] s.players).1 vs'
      a bsid bobj.val hne (hvalflat ▸ hval) (hsids ▸ hndflat)
    exact ⟨o, by
      rw [show sn = mkSnap (genLayersP b s.vlayers [] s.players).1 vs' a from h1]
      exact ho, hov⟩

/-- Claim C6 — spawn deferral: objects spawned during the apply-spawns
phase are appended to their target layers only after the despawn phase has
finished for all objects in all layers, so (given fresh identities and
registered target layers) a newly spawned object receives no
`generate_rate`, `apply_rate` or despawn-check event in the frame that
spawned it; it is present in the next frame's registry and its first
`generate_rate` event occurs in the following frame's trace; and when every
object stays alive, the total object count grows by exactly the number of
spawned objects — by exactly one when one object is spawned per frame. -/
theorem C6_spawn_deferral (b : SimBehavior) (s : SimState) (out : FrameOut)
    (hout : frame b s = out)
    (hndp : (s.players.map (·.1)).Nodup) (hndv : (s.vlayers.map (·.1)).Nodup)
    (htp : ∀ sp ∈ out.spawnedP, sp.1 ∈ s.players.map (·.1))
    (htv : ∀ sp ∈ out.spawnedV, sp.1 ∈ s.vlayers.map (·.1)) :
    (∀ sid ∈ spawnedSids out, sid ∉ allSids s →
      Ev.gen sid ∉ out.trace ∧ Ev.app sid ∉ out.trace ∧ Ev.check sid ∉ out.trace) ∧
    (∀ sid ∈ spawnedSids out, sid ∈ allSids out.state) ∧
    (∀ sid ∈ spawnedSids out, Ev.gen sid ∈ (frame b out.state).trace) ∧
    ((∀ i o, b.palive i o = true) → (∀ i o, b.valive i o = true) →
      totalCount out.state = totalCount s
        + ((out.spawnedP ++ out.spawnedV).flatMap (·.2)).length) ∧
    ((∀ i o, b.palive i o = true) → (∀ i o, b.valive i o = true) →
      ((out.spawnedP ++ out.spawnedV).flatMap (·.2)).length = 1 →
      totalCount out.state = totalCount s + 1) := by
  subst hout
  obtain ⟨chk, ins, htr, hchk, _, hins⟩ := frame_trace_char b s
  -- name chains through the phases
  have hs1 : flatSids (genLayersP b s.vlayers [] s.players).1 = flatSids s.players :=
    sids_of_vmap (genLayersP_start_vmapL b s)
  have hs2 : flatSids (genLayersV b (genLayersP b s.vlayers [] s.players).1
      [] s.vlayers).1 = flatSids s.vlayers :=
    sids_of_vmap (genLayersV_start_vmapL b s)
  have hn1 : (despawnLayers b.palive b.pspawnP b.pspawnV
      (applyLayers b.papply (genLayersP b s.vlayers [] s.players).1)).1.map (·.1)
      = s.players.map (·.1) := by
    rw [despawnLayers_names, applyLayers_names,
      names_of_vmap (genLayersP_start_vmapL b s)]
  have hn2 : (despawnLayers b.valive (fun _ _ => []) b.vspawnV
      (applyLayers b.vapply (genLayersV b (genLayersP b s.vlayers [] s.players).1
        [] s.vlayers).1)).1.map (·.1) = s.vlayers.map (·.1) := by
    rw [despawnLayers_names, applyLayers_names,
      names_of_vmap (genLayersV_start_vmapL b s)]
  have hmemstate : ∀ sid ∈ spawnedSids (frame b s), sid ∈ allSids (frame b s).state := by
    intro sid hsid
    unfold spawnedSids at hsid
    obtain ⟨e, he, rfl⟩ := List.mem_map.mp hsid
    obtain ⟨sp, hsp, hesp⟩ := List.mem_flatMap.mp he
    rcases List.mem_append.mp hsp with hsp | hsp
    · have hmem : e.1 ∈ flatSids (frame b s).state.players := by
        rw [show (frame b s).state.players
            = insertSpawns (despawnLayers b.palive b.pspawnP b.pspawnV
              (applyLayers b.papply (genLayersP b s.vlayers [] s.players).1)).1
              (frame b s).spawnedP from congrArg SimState.players (frame_state_eq b s)]
        exact insertSpawns_adds _ _ sp e hsp (by rw [hn1]; exact htp sp hsp) hesp
      exact List.mem_append.mpr (Or.inl hmem)
    · have hmem : e.1 ∈ flatSids (frame b s).state.vlayers := by
        rw [show (frame b s).state.vlayers
            = insertSpawns (despawnLayers b.valive (fun _ _ => []) b.vspawnV
              (applyLayers b.vapply (genLayersV b
                (genLayersP b s.vlayers [] s.players).1 [] s.vlayers).1)).1
              (frame b s).spawnedV from congrArg SimState.vlayers (frame_state_eq b s)]
        exact insertSpawns_adds _ _ sp e hsp (by rw [hn2]; exact htv sp hsp) hesp
      exact List.mem_append.mpr (Or.inr hmem)
  have hcount : (∀ i o, b.palive i o = true) → (∀ i o, b.valive i o = true) →
      totalCount (frame b s).state = totalCount s
        + (((frame b s).spawnedP ++ (frame b s).spawnedV).flatMap (·.2)).length := by
    intro hpall hvall
    have htc : ∀ st : SimState, totalCount st
        = (flatSids st.players).length + (flatSids st.vlayers).length := by
      intro st
      unfold totalCount allEnts
      rw [List.flatMap_append, List.length_append,
        flatSids_eq_map, flatSids_eq_map, List.length_map, List.length_map]
    have hd1 : (despawnLayers b.palive b.pspawnP b.pspawnV
        (applyLayers b.papply (genLayersP b s.vlayers [] s.players).1)).1
        = applyLayers b.papply (genLayersP b s.vlayers [] s.players).1 :=
      despawnLayers_all_alive _ _ _ _ (fun _ _ e _ => hpall e.1 e.2)
    have hd2 : (despawnLayers b.valive (fun _ _ => []) b.vspawnV
        (applyLayers b.vapply (genLayersV b (genLayersP b s.vlayers [] s.players).1
          [] s.vlayers).1)).1
        = applyLayers b.vapply (genLayersV b (genLayersP b s.vlayers [] s.players).1
          [] s.vlayers).1 :=
      despawnLayers_all_alive _ _ _ _ (fun _ _ e _ => hvall e.1 e.2)
    have hap1 : flatSids (applyLayers b.papply
        (genLayersP b s.vlayers [] s.players).1) = flatSids s.players := by
      rw [applyLayers_sids, hs1]
    have hap2 : flatSids (applyLayers b.vapply
        (genLayersV b (genLayersP b s.vlayers [] s.players).1 [] s.vlayers).1)
        = flatSids s.vlayers := by
      rw [applyLayers_sids, hs2]
    have hna1 : (applyLayers b.papply (genLayersP b s.vlayers [] s.players).1).map (·.1)
        = s.players.map (·.1) := by
      rw [applyLayers_names, names_of_vmap (genLayersP_start_vmapL b s)]
    have hna2 : (applyLayers b.vapply (genLayersV b
        (genLayersP b s.vlayers [] s.players).1 [] s.vlayers).1).map (·.1)
        = s.vlayers.map (·.1) := by
      rw [applyLayers_names, names_of_vmap (genLayersV_start_vmapL b s)]
    have hc1 : (flatSids (frame b s).state.players).length
        = (flatSids s.players).length
          + ((frame b s).spawnedP.map (fun sp => sp.2.length)).sum := by
      rw [show (frame b s).state.players
          = insertSpawns (despawnLayers b.palive b.pspawnP b.pspawnV
            (applyLayers b.papply (genLayersP b s.vlayers [] s.players).1)).1
            (frame b s).spawnedP from congrArg SimState.players (frame_state_eq b s),
        hd1,
        insertSpawns_count _ _ (by rw [hna1]; exact hndp)
          (fun sp h => by rw [hna1]; exact htp sp h),
        hap1]
    have hc2 : (flatSids (frame b s).state.vlayers).length
        = (flatSids s.vlayers).length
          + ((frame b s).spawnedV.map (fun sp => sp.2.length)).sum := by
      rw [show (frame b s).state.vlayers
          = insertSpawns (despawnLayers b.valive (fun _ _ => []) b.vspawnV
            (applyLayers b.vapply (genLayersV b
              (genLayersP b s.vlayers [] s.players).1 [] s.vlayers).1)).1
            (frame b s).spawnedV from congrArg SimState.vlayers (frame_state_eq b s),
        hd2,
        insertSpawns_count _ _ (by rw [hna2]; exact hndv)
          (fun sp h => by rw [hna2]; exact htv sp h),
        hap2]
    have hsum : (((frame b s).spawnedP ++ (frame b s).spawnedV).flatMap (·.2)).length
        = ((frame b s).spawnedP.map (fun sp => sp.2.length)).sum
          + ((frame b s).spawnedV.map (fun sp => sp.2.length)).sum := by
      rw [List.flatMap_append, List.length_append]
      congr 1 <;> rw [List.length_flatMap] <;> rfl
    rw [htc, htc, hc1, hc2, hsum]
    omega
  refine ⟨?_, hmemstate, ?_, hcount, ?_⟩
  · -- no same-frame events for fresh spawned identities
    intro sid _ hfresh
    refine ⟨?_, ?_, ?_⟩
    · intro hmem
      rw [htr] at hmem
      rcases List.mem_append.mp hmem with hmem | hmem'
      rcases List.mem_append.mp hmem with hmem | hmem'
      rcases List.mem_append.mp hmem with hmem | hmem'
      · obtain ⟨x, hx, hxe⟩ := List.mem_map.mp hmem
        injection hxe with hx2
        subst hx2
        exact hfresh hx
      · obtain ⟨x, _, hxe⟩ := List.mem_map.mp hmem'
        cases hxe
      · obtain ⟨x, _, hxe⟩ := hchk _ hmem'
        cases hxe
      · obtain ⟨x, hxe⟩ := hins _ hmem'
        cases hxe
    · intro hmem
      rw [htr] at hmem
      rcases List.mem_append.mp hmem with hmem | hmem'
      rcases List.mem_append.mp hmem with hmem | hmem'
      rcases List.mem_append.mp hmem with hmem | hmem'
      · obtain ⟨x, _, hxe⟩ := List.mem_map.mp hmem
        cases hxe
      · obtain ⟨x, hx, hxe⟩ := List.mem_map.mp hmem'
        injection hxe with hx2
        subst hx2
        exact hfresh hx
      · obtain ⟨x, _, hxe⟩ := hchk _ hmem'
        cases hxe
      · obtain ⟨x, hxe⟩ := hins _ hmem'
        cases hxe
    · intro hmem
      rw [htr] at hmem
      rcases List.mem_append.mp hmem with hmem | hmem'
      rcases List.mem_append.mp hmem with hmem | hmem'
      rcases List.mem_append.mp hmem with hmem | hmem'
      · obtain ⟨x, _, hxe⟩ := List.mem_map.mp hmem
        cases hxe
      · obtain ⟨x, _, hxe⟩ := List.mem_map.mp hmem'
        cases hxe
      · obtain ⟨x, hx, hxe⟩ := hchk _ hmem'
        rw [hxe] at hmem'
        injection hxe with hx2
        subst hx2
        exact hfresh hx
      · obtain ⟨x, hxe⟩ := hins _ hmem'
        cases hxe
  · -- first generate event is in the following frame
    intro sid hsid
    obtain ⟨chk', ins', htr', _, _, _⟩ := frame_trace_char b (frame b s).state
    rw [htr']
    refine List.mem_append.mpr (Or.inl (List.mem_append.mpr (Or.inl
      (List.mem_append.mpr (Or.inl ?_)))))
    exact List.mem_map_of_mem Ev.gen (hmemstate sid hsid)
  · intro hpall hvall hone
    rw [hcount hpall hvall, hone]

/-- Witness for C5 at the concrete example frame. -/
theorem C5_phase_ordering_witness :
    (frame exampleBehavior exampleSim = frame exampleBehavior exampleSim ∧
     (allSids exampleSim).Nodup) ∧
    ((∃ chk ins, (frame exampleBehavior exampleSim).trace
        = (allSids exampleSim).map Ev.gen ++ (allSids exampleSim).map Ev.app
          ++ chk ++ ins ∧
      (∀ ev ∈ chk, ∃ x ∈ allSids exampleSim, ev = Ev.check x) ∧
      (∀ x ∈ allSids exampleSim, Ev.check x ∈ chk) ∧
      (∀ ev ∈ ins, ∃ x : Nat, ev = Ev.ins x)) ∧
    (∀ a sn, (a, sn) ∈ (frame exampleBehavior exampleSim).calls →
      ∀ bsid bobj, (bsid, bobj) ∈ allEnts exampleSim → bsid ≠ a →
      ∃ o : SimObj, sn.lookup bsid = some (some o) ∧ o.val = bobj.val)) :=
  ⟨⟨rfl, by decide⟩,
   C5_phase_ordering exampleBehavior exampleSim
     (frame exampleBehavior exampleSim) rfl (by decide)⟩

/-- Witness for C6 at the concrete example frame, which spawns exactly one
object (fresh slot 77). -/
theorem C6_spawn_deferral_witness :
    ((exampleSim.players.map (·.1)).Nodup ∧ (exampleSim.vlayers.map (·.1)).Nodup ∧
     (∀ sp ∈ (frame exampleBehavior exampleSim).spawnedP,
        sp.1 ∈ exampleSim.players.map (·.1)) ∧
     (∀ sp ∈ (frame exampleBehavior exampleSim).spawnedV,
        sp.1 ∈ exampleSim.vlayers.map (·.1))) ∧
    ((∀ sid ∈ spawnedSids (frame exampleBehavior exampleSim),
        sid ∉ allSids exampleSim →
      Ev.gen sid ∉ (frame exampleBehavior exampleSim).trace ∧
      Ev.app sid ∉ (frame exampleBehavior exampleSim).trace ∧
      Ev.check sid ∉ (frame exampleBehavior exampleSim).trace) ∧
    (∀ sid ∈ spawnedSids (frame exampleBehavior exampleSim),
      sid ∈ allSids (frame exampleBehavior exampleSim).state) ∧
    (∀ sid ∈ spawnedSids (frame exampleBehavior exampleSim),
      Ev.gen sid ∈ (frame exampleBehavior
        (frame exampleBehavior exampleSim).state).trace) ∧
    ((∀ i o, exampleBehavior.palive i o = true) →
     (∀ i o, exampleBehavior.valive i o = true) →
      totalCount (frame exampleBehavior exampleSim).state = totalCount exampleSim
        + (((frame exampleBehavior exampleSim).spawnedP
            ++ (frame exampleBehavior exampleSim).spawnedV).flatMap (·.2)).length) ∧
    ((∀ i o, exampleBehavior.palive i o = true) →
     (∀ i o, exampleBehavior.valive i o = true) →
      (((frame exampleBehavior exampleSim).spawnedP
        ++ (frame exampleBehavior exampleSim).spawnedV).flatMap (·.2)).length = 1 →
      totalCount (frame exampleBehavior exampleSim).state
        = totalCount exampleSim + 1)) :=
  ⟨⟨by decide, by decide, by decide, by decide⟩,
   C6_spawn_deferral exampleBehavior exampleSim
     (frame exampleBehavior exampleSim) rfl
     (by decide) (by decide) (by decide) (by decide)⟩

end GameEngine
